import Mathlib

/-!
Verification of the MeshTweaker auto-orientation algorithm (`MeshTweaker.py`).

The Python module computes, for a triangulated mesh, the rotation that
minimises a heuristic "unprintability" score.  This file gives a shallow
embedding of its data model and operations over the real numbers:

* numpy float64 scalars are modelled as `ℝ`; a mesh row (shape 6 x 3) becomes
  the structure `Face` (normal, three vertices, three per-vertex projections,
  and the derived scalars area / projMax / projMedian);
* `preprocess`, `favour_side`, `remove_duplicates`, `project_vertices`,
  `calc_overhang`, `target_function` and `euler` are translated function by
  function, keeping the source's branch structure, filters and formulas;
* the driver loop of `Tweak.__init__` (score every candidate orientation,
  sort ascending by unprintability, report rank 0) is `driverLoop` /
  `tweak` / `tweakOutput`.

Theorems below settle the specification claims about these functions.
-/

namespace MeshTweaker

/-- A 3-vector of reals, modelling a numpy float64 row of length 3. -/
@[ext]
structure Vec3 where
  x : ℝ
  y : ℝ
  z : ℝ

namespace Vec3

def add (a b : Vec3) : Vec3 := ⟨a.x + b.x, a.y + b.y, a.z + b.z⟩

def sub (a b : Vec3) : Vec3 := ⟨a.x - b.x, a.y - b.y, a.z - b.z⟩

def neg (a : Vec3) : Vec3 := ⟨-a.x, -a.y, -a.z⟩

def smul (c : ℝ) (a : Vec3) : Vec3 := ⟨c * a.x, c * a.y, c * a.z⟩

/-- The inner product `np.inner` of two rows of length 3. -/
def dot (a b : Vec3) : ℝ := a.x * b.x + a.y * b.y + a.z * b.z

/-- The cross product `np.cross` of two rows of length 3. -/
def cross (a b : Vec3) : Vec3 :=
  ⟨a.y * b.z - a.z * b.y, a.z * b.x - a.x * b.z, a.x * b.y - a.y * b.x⟩

end Vec3

/-- The Euclidean norm `np.sqrt(np.sum(np.square(v)))` of a row. -/
noncomputable def vnorm (a : Vec3) : ℝ := Real.sqrt (Vec3.dot a a)

/-! ## The tuned parameter table (module-level `parameter` dict) -/

def ABSOLUTE_F : ℝ := 98.5883768434822
def RELATIVE_F : ℝ := 1.162524130132582
def CONTOUR_F : ℝ := 0.1605628698074317
def FIRST_LAY_H : ℝ := 0.08473208766649207
def TAR_A : ℝ := 0.7015860182950739
def TAR_B : ℝ := 0.26931582120058184
def TAR_C : ℝ := 1.554247674370683
def TAR_D : ℝ := 0.44833952635629537
def BOTTOM_F : ℝ := 0.8840613107383717
def PLAFOND_ADV : ℝ := 0.24174313621949237
def ANGLE_SCALE : ℝ := 0.7254421358435629
def ASCENT : ℝ := 119.03812433302157
def NEGL_FACE_SIZE : ℝ := 0.43859512908527554
def CONTOUR_AMOUNT : ℝ := 0.012893512521961371
def VECTOR_TOL : ℝ := 0.001

/-- numpy's default relative tolerance in `np.allclose` (rtol = 1e-05). -/
def npRtol : ℝ := 0.00001

/-- Componentwise closeness `np.allclose(a, b, atol)` on rows of length 3: componentwise
`|a - b| <= atol + rtol * |b|` with numpy's default `rtol`. -/
def allclose (a b : Vec3) (atol : ℝ) : Prop :=
  |a.x - b.x| ≤ atol + npRtol * |b.x| ∧
  |a.y - b.y| ≤ atol + npRtol * |b.y| ∧
  |a.z - b.z| ≤ atol + npRtol * |b.z|

/-! ## The face table

A row of `self.mesh` (shape 6 x 3) is: row 0 the (normalised) area vector,
rows 1-3 the vertices, row 4 the per-vertex projections, row 5 the scalars
`(area, projMax, projMedian)`. -/

/-- One row of the mesh table. -/
@[ext]
structure Face where
  normal : Vec3
  v0 : Vec3
  v1 : Vec3
  v2 : Vec3
  p0 : ℝ
  p1 : ℝ
  p2 : ℝ
  area : ℝ
  projMax : ℝ
  projMedian : ℝ

/-- The maximum `np.max` of three scalars. -/
noncomputable def max3 (a b c : ℝ) : ℝ := max a (max b c)

/-- The minimum `np.min` of three scalars. -/
noncomputable def min3 (a b c : ℝ) : ℝ := min a (min b c)

/-- The median `np.median` of three scalars: the middle value. -/
noncomputable def med3 (a b c : ℝ) : ℝ := max (min a b) (min (max a b) c)

/-! ## The unprintability objective (`Tweak.target_function`) -/

/-- The objective `Tweak.target_function`: the unprintability of a `(bottom, overhang,
contour)` triple.  In `min_volume` mode the overhang argument is first divided
by 25. -/
noncomputable def target_function (bottom overhang contour : ℝ)
    (min_volume : Bool) : ℝ :=
  let overhang := if min_volume then overhang / 25 else overhang
  TAR_A * ((overhang + TAR_B) / ABSOLUTE_F) +
    RELATIVE_F * (overhang + TAR_C) /
      (TAR_D + CONTOUR_F * contour + BOTTOM_F * bottom)

lemma target_function_false (b o c : ℝ) :
    target_function b o c false =
      TAR_A * ((o + TAR_B) / ABSOLUTE_F) +
        RELATIVE_F * (o + TAR_C) /
          (TAR_D + CONTOUR_F * c + BOTTOM_F * b) := rfl

lemma target_function_true (b o c : ℝ) :
    target_function b o c true = target_function b (o / 25) c false := rfl

lemma denom_pos {b c : ℝ} (hb : 0 ≤ b) (hc : 0 ≤ c) :
    0 < TAR_D + CONTOUR_F * c + BOTTOM_F * b := by
  have h1 : (0 : ℝ) < TAR_D := by norm_num [TAR_D]
  have h2 : 0 ≤ CONTOUR_F * c := by
    have : (0 : ℝ) ≤ CONTOUR_F := by norm_num [CONTOUR_F]
    positivity
  have h3 : 0 ≤ BOTTOM_F * b := by
    have : (0 : ℝ) ≤ BOTTOM_F := by norm_num [BOTTOM_F]
    positivity
  linarith

lemma TAR_A_pos : (0 : ℝ) < TAR_A := by norm_num [TAR_A]
lemma TAR_B_pos : (0 : ℝ) < TAR_B := by norm_num [TAR_B]
lemma TAR_C_pos : (0 : ℝ) < TAR_C := by norm_num [TAR_C]
lemma ABSOLUTE_F_pos : (0 : ℝ) < ABSOLUTE_F := by norm_num [ABSOLUTE_F]
lemma RELATIVE_F_pos : (0 : ℝ) < RELATIVE_F := by norm_num [RELATIVE_F]

/-- Strict monotonicity in the overhang argument, area mode. -/
lemma tf_strictMono_overhang {b c : ℝ} (hb : 0 ≤ b) (hc : 0 ≤ c)
    {o1 o2 : ℝ} (h : o1 < o2) :
    target_function b o1 c false < target_function b o2 c false := by
  have hD := denom_pos hb hc
  rw [target_function_false, target_function_false]
  have h1 : TAR_A * ((o1 + TAR_B) / ABSOLUTE_F)
      < TAR_A * ((o2 + TAR_B) / ABSOLUTE_F) := by
    apply mul_lt_mul_of_pos_left _ TAR_A_pos
    exact (div_lt_div_iff_of_pos_right ABSOLUTE_F_pos).mpr (by linarith)
  have h2 : RELATIVE_F * (o1 + TAR_C) / (TAR_D + CONTOUR_F * c + BOTTOM_F * b)
      ≤ RELATIVE_F * (o2 + TAR_C) / (TAR_D + CONTOUR_F * c + BOTTOM_F * b) := by
    exact (div_le_div_iff_of_pos_right hD).mpr (by nlinarith [RELATIVE_F_pos])
  linarith

/-- Strict antitonicity in the bottom argument, area mode (for `0 ≤ o`). -/
lemma tf_strictAnti_bottom {c o : ℝ} (hc : 0 ≤ c) (ho : 0 ≤ o)
    {b1 b2 : ℝ} (hb1 : 0 ≤ b1) (h : b1 < b2) :
    target_function b2 o c false < target_function b1 o c false := by
  have hD1 := denom_pos hb1 hc
  have hD2 := denom_pos (le_trans hb1 h.le) hc
  rw [target_function_false, target_function_false]
  have hnum : 0 < RELATIVE_F * (o + TAR_C) := by
    nlinarith [RELATIVE_F_pos, TAR_C_pos]
  have h2 : RELATIVE_F * (o + TAR_C) / (TAR_D + CONTOUR_F * c + BOTTOM_F * b2)
      < RELATIVE_F * (o + TAR_C) / (TAR_D + CONTOUR_F * c + BOTTOM_F * b1) := by
    apply (div_lt_div_iff_of_pos_left hnum hD2 hD1).mpr
    have hBF : (0 : ℝ) < BOTTOM_F := by norm_num [BOTTOM_F]
    nlinarith
  linarith

/-- Strict antitonicity in the contour argument, area mode (for `0 ≤ o`). -/
lemma tf_strictAnti_contour {b o : ℝ} (hb : 0 ≤ b) (ho : 0 ≤ o)
    {c1 c2 : ℝ} (hc1 : 0 ≤ c1) (h : c1 < c2) :
    target_function b o c2 false < target_function b o c1 false := by
  have hD1 := denom_pos hb hc1
  have hD2 := denom_pos hb (le_trans hc1 h.le)
  rw [target_function_false, target_function_false]
  have hnum : 0 < RELATIVE_F * (o + TAR_C) := by
    nlinarith [RELATIVE_F_pos, TAR_C_pos]
  have h2 : RELATIVE_F * (o + TAR_C) / (TAR_D + CONTOUR_F * c2 + BOTTOM_F * b)
      < RELATIVE_F * (o + TAR_C) / (TAR_D + CONTOUR_F * c1 + BOTTOM_F * b) := by
    apply (div_lt_div_iff_of_pos_left hnum hD2 hD1).mpr
    have hCF : (0 : ℝ) < CONTOUR_F := by norm_num [CONTOUR_F]
    nlinarith
  linarith

/-- Lower bound: for nonnegative arguments the objective strictly exceeds
`TAR_A * TAR_B / ABSOLUTE_F` (a positive constant close to zero). -/
lemma tf_lower_bound {b o c : ℝ} (hb : 0 ≤ b) (ho : 0 ≤ o) (hc : 0 ≤ c) :
    TAR_A * TAR_B / ABSOLUTE_F < target_function b o c false := by
  have hD := denom_pos hb hc
  rw [target_function_false]
  have h1 : TAR_A * TAR_B / ABSOLUTE_F ≤ TAR_A * ((o + TAR_B) / ABSOLUTE_F) := by
    rw [mul_div_assoc]
    apply mul_le_mul_of_nonneg_left _ TAR_A_pos.le
    exact (div_le_div_iff_of_pos_right ABSOLUTE_F_pos).mpr (by linarith)
  have h2 : 0 < RELATIVE_F * (o + TAR_C) /
      (TAR_D + CONTOUR_F * c + BOTTOM_F * b) := by
    apply div_pos _ hD
    nlinarith [RELATIVE_F_pos, TAR_C_pos]
  linarith

/-- The objective dominates a linear function of the overhang argument. -/
lemma tf_linear_lower {b o c : ℝ} (hb : 0 ≤ b) (ho : 0 ≤ o) (hc : 0 ≤ c) :
    TAR_A * o / ABSOLUTE_F < target_function b o c false := by
  have hD := denom_pos hb hc
  rw [target_function_false]
  have h1 : TAR_A * o / ABSOLUTE_F < TAR_A * ((o + TAR_B) / ABSOLUTE_F) := by
    rw [mul_div_assoc]
    apply mul_lt_mul_of_pos_left _ TAR_A_pos
    exact (div_lt_div_iff_of_pos_right ABSOLUTE_F_pos).mpr (by nlinarith [TAR_B_pos])
  have h2 : 0 < RELATIVE_F * (o + TAR_C) /
      (TAR_D + CONTOUR_F * c + BOTTOM_F * b) := by
    apply div_pos _ hD
    nlinarith [RELATIVE_F_pos, TAR_C_pos]
  linarith

/-- The objective is unbounded above as the overhang argument grows. -/
lemma tf_unbounded_false {b c : ℝ} (hb : 0 ≤ b) (hc : 0 ≤ c)
    (lo : ℝ) (hlo : 0 ≤ lo) (M : ℝ) :
    ∃ o2, lo ≤ o2 ∧ M < target_function b o2 c false := by
  refine ⟨max lo (M * ABSOLUTE_F / TAR_A + 1), le_max_left _ _, ?_⟩
  set o2 := max lo (M * ABSOLUTE_F / TAR_A + 1) with ho2
  have h1 : M * ABSOLUTE_F / TAR_A + 1 ≤ o2 := le_max_right _ _
  have h2 : 0 ≤ o2 := le_trans hlo (le_max_left _ _)
  have h3 := tf_linear_lower hb h2 hc
  have h4 : M < TAR_A * o2 / ABSOLUTE_F := by
    rw [lt_div_iff₀ ABSOLUTE_F_pos]
    have h5 : TAR_A * (M * ABSOLUTE_F / TAR_A + 1) ≤ TAR_A * o2 :=
      mul_le_mul_of_nonneg_left h1 TAR_A_pos.le
    have heq : TAR_A * (M * ABSOLUTE_F / TAR_A + 1) = M * ABSOLUTE_F + TAR_A := by
      have hA0 : TAR_A ≠ 0 := ne_of_gt TAR_A_pos
      field_simp
    nlinarith [TAR_A_pos]
  linarith

/-- Claim C3: for nonnegative inputs, `target_function` is strictly increasing
in the overhang, strictly decreasing in the bottom area and in the contour
length, strictly positive (bounded below by the near-zero constant
`TAR_A * TAR_B / ABSOLUTE_F`), and unbounded above as the overhang grows; in
`min_volume` mode the overhang argument is first divided by 25. -/
theorem target_function_qualitative (bottom overhang contour : ℝ)
    (min_volume : Bool) (hb : 0 ≤ bottom) (ho : 0 ≤ overhang)
    (hc : 0 ≤ contour) :
    (∀ o2, overhang < o2 →
      target_function bottom overhang contour min_volume
        < target_function bottom o2 contour min_volume) ∧
    (∀ b2, bottom < b2 →
      target_function b2 overhang contour min_volume
        < target_function bottom overhang contour min_volume) ∧
    (∀ c2, contour < c2 →
      target_function bottom overhang c2 min_volume
        < target_function bottom overhang contour min_volume) ∧
    (0 < target_function bottom overhang contour min_volume ∧
      TAR_A * TAR_B / ABSOLUTE_F
        < target_function bottom overhang contour min_volume) ∧
    (∀ M : ℝ, ∃ o2, overhang ≤ o2 ∧
      M < target_function bottom o2 contour min_volume) ∧
    target_function bottom overhang contour true
      = target_function bottom (overhang / 25) contour false := by
  have hABpos : 0 < TAR_A * TAR_B / ABSOLUTE_F := by
    apply div_pos _ ABSOLUTE_F_pos
    nlinarith [TAR_A_pos, TAR_B_pos]
  cases min_volume with
  | false =>
    refine ⟨fun o2 h => tf_strictMono_overhang hb hc h,
      fun b2 h => tf_strictAnti_bottom hc ho hb h,
      fun c2 h => tf_strictAnti_contour hb ho hc h,
      ⟨lt_trans hABpos (tf_lower_bound hb ho hc), tf_lower_bound hb ho hc⟩,
      fun M => tf_unbounded_false hb hc overhang ho M,
      target_function_true _ _ _⟩
  | true =>
    have ho25 : 0 ≤ overhang / 25 := by linarith
    refine ⟨?_, ?_, ?_, ?_, ?_, target_function_true _ _ _⟩
    · intro o2 h
      rw [target_function_true, target_function_true]
      exact tf_strictMono_overhang hb hc (by linarith)
    · intro b2 h
      rw [target_function_true, target_function_true]
      exact tf_strictAnti_bottom hc ho25 hb h
    · intro c2 h
      rw [target_function_true, target_function_true]
      exact tf_strictAnti_contour hb ho25 hc h
    · rw [target_function_true]
      exact ⟨lt_trans hABpos (tf_lower_bound hb ho25 hc),
        tf_lower_bound hb ho25 hc⟩
    · intro M
      obtain ⟨o', ho', hM⟩ := tf_unbounded_false hb hc (overhang / 25) ho25 M
      refine ⟨25 * o', by linarith, ?_⟩
      rw [target_function_true]
      have : 25 * o' / 25 = o' := by ring
      rw [this]
      exact hM

/-- Witness for Claim C3's theorem at `(bottom, overhang, contour) = (0,0,0)`
in area mode. -/
theorem target_function_qualitative_witness :
    (0 : ℝ) ≤ 0 ∧
    ((∀ o2, (0 : ℝ) < o2 →
      target_function 0 0 0 false < target_function 0 o2 0 false) ∧
    (∀ b2, (0 : ℝ) < b2 →
      target_function b2 0 0 false < target_function 0 0 0 false) ∧
    (∀ c2, (0 : ℝ) < c2 →
      target_function 0 0 c2 false < target_function 0 0 0 false) ∧
    (0 < target_function 0 0 0 false ∧
      TAR_A * TAR_B / ABSOLUTE_F < target_function 0 0 0 false) ∧
    (∀ M : ℝ, ∃ o2, (0 : ℝ) ≤ o2 ∧ M < target_function 0 o2 0 false) ∧
    target_function 0 0 0 true = target_function 0 (0 / 25) 0 false) :=
  ⟨le_refl 0, target_function_qualitative 0 0 0 false (le_refl 0)
    (le_refl 0) (le_refl 0)⟩

/-! ## Projection (`Tweak.project_vertices`) -/

/-- The per-face update of `Tweak.project_vertices`: rows `[:, 4, :]`
receive the inner products of the three vertices with the orientation and
columns `[:, 5, 1]` / `[:, 5, 2]` their max and median. -/
noncomputable def projFace (orientation : Vec3) (f : Face) : Face :=
  let p0 := Vec3.dot f.v0 orientation
  let p1 := Vec3.dot f.v1 orientation
  let p2 := Vec3.dot f.v2 orientation
  { f with p0 := p0, p1 := p1, p2 := p2,
           projMax := max3 p0 p1 p2, projMedian := med3 p0 p1 p2 }

/-- The projection pass `Tweak.project_vertices` on the whole table. -/
noncomputable def project_vertices (orientation : Vec3)
    (mesh : List Face) : List Face :=
  mesh.map (projFace orientation)

/-- The scalar `np.amin(self.mesh[:, 4, :])`, the smallest projection of the table
(0 for the empty table, on which numpy's `amin` is undefined). -/
noncomputable def faceMin (f : Face) : ℝ := min3 f.p0 f.p1 f.p2

noncomputable def totalMin : List Face → ℝ
  | [] => 0
  | f :: t => t.foldl (fun a g => min a (faceMin g)) (faceMin f)

lemma foldl_min_le_init (t : List Face) :
    ∀ a : ℝ, t.foldl (fun a g => min a (faceMin g)) a ≤ a := by
  induction t with
  | nil => intro a; simp
  | cons g t ih =>
    intro a
    simp only [List.foldl_cons]
    exact le_trans (ih _) (min_le_left _ _)

lemma foldl_min_le_mem (t : List Face) :
    ∀ (a : ℝ) (f : Face), f ∈ t →
      t.foldl (fun a g => min a (faceMin g)) a ≤ faceMin f := by
  induction t with
  | nil => intro a f hf; cases hf
  | cons g t ih =>
    intro a f hf
    simp only [List.foldl_cons]
    rcases List.mem_cons.mp hf with h | h
    · subst h
      exact le_trans (foldl_min_le_init t _) (min_le_right _ _)
    · exact ih _ f h

lemma totalMin_le {mesh : List Face} {f : Face} (hf : f ∈ mesh) :
    totalMin mesh ≤ faceMin f := by
  cases mesh with
  | nil => cases hf
  | cons g t =>
    rcases List.mem_cons.mp hf with h | h
    · subst h
      exact foldl_min_le_init t _
    · exact foldl_min_le_mem t _ f h

/-! ## Overhang scoring (`Tweak.calc_overhang`) -/

/-- The constant `ascent = np.cos(self.ASCENT * np.pi / 180)`: the cosine of the critical
angle. -/
noncomputable def ascent : ℝ := Real.cos (ASCENT * Real.pi / 180)

/-- The per-face contribution in the default (supported-area) overhang mode:
`area * (inner * (inner < 0)) ** 2` with `inner = normal . orientation -
ascent`. -/
noncomputable def overhangTermArea (orientation : Vec3) (f : Face) : ℝ :=
  let inner := Vec3.dot f.normal orientation - ascent
  f.area * (inner * (if inner < 0 then 1 else 0)) ^ 2

/-- The per-face contribution in `min_volume` mode:
`heights * area * (inner * (inner < 0)) ** 2` with `heights` the height of
the face's centre above the lowest mesh point. -/
noncomputable def overhangTermVolume (total_min : ℝ) (orientation : Vec3)
    (f : Face) : ℝ :=
  let center := Vec3.smul (1 / 3) (Vec3.add (Vec3.add f.v0 f.v1) f.v2)
  let heights := Vec3.dot center orientation - total_min
  let inner := Vec3.dot f.normal orientation - ascent
  heights * f.area * (inner * (if inner < 0 then 1 else 0)) ^ 2

/-- The contour edge of one contour-straddling face: the edge between the two
vertices with the smallest projections (`np.argsort` on row 4; numpy's sort
is stable on 3-element rows, so among tied maxima the highest index is the
one dropped). -/
noncomputable def contourEdgeLen (f : Face) : ℝ :=
  if f.p0 ≤ f.p2 ∧ f.p1 ≤ f.p2 then vnorm (Vec3.sub f.v0 f.v1)
  else if f.p0 ≤ f.p1 then vnorm (Vec3.sub f.v0 f.v2)
  else vnorm (Vec3.sub f.v1 f.v2)

open Classical in
/-- The bottom filter `self.mesh[self.mesh[:, 5, 1] < total_min + self.FIRST_LAY_H]`. -/
noncomputable def bottomsOf (mesh : List Face) : List Face :=
  mesh.filter fun f => decide (f.projMax < totalMin mesh + FIRST_LAY_H)

open Classical in
/-- The overhang filter: faces leaning past the critical angle
(`np.inner(normal, orientation) < ascent`) whose maximal projection lies
above the bottom band. -/
noncomputable def overhangsOf (mesh : List Face) (orientation : Vec3) :
    List Face :=
  (mesh.filter fun f =>
      decide (Vec3.dot f.normal orientation < ascent)).filter fun f =>
    decide (totalMin mesh + FIRST_LAY_H < f.projMax)

open Classical in
/-- The plafond correction: the summed area of the overhang faces whose
normal equals `anti_orient` exactly (0 outside extended mode, and also when
no such face exists, as the sum over the empty list). -/
noncomputable def plafondOf (extended_mode : Bool) (mesh : List Face)
    (orientation : Vec3) : ℝ :=
  if extended_mode then
    (((overhangsOf mesh orientation).filter fun f =>
      decide (f.normal = Vec3.neg orientation)).map Face.area).sum
  else 0

open Classical in
/-- The contour filter of extended mode:
`self.mesh[self.mesh[:, 5, 2] < total_min + self.FIRST_LAY_H]`. -/
noncomputable def contoursOf (mesh : List Face) : List Face :=
  mesh.filter fun f => decide (f.projMedian < totalMin mesh + FIRST_LAY_H)

/-- The scorer `Tweak.calc_overhang`.  Returns the triple `(bottom, overhang, contour)`.

* `bottom` is the summed area of the faces whose maximal projection lies in
  the first-layer band above the lowest mesh point (the `len(bottoms) > 0`
  branch of the source returns the same value as summing the empty list).
* `overhang` sums the clipped, squared penalty over the faces leaning past
  the critical angle and lying above the bottom band, minus the plafond
  correction (extended mode only).
* `contour`: in extended mode, the summed contour-edge lengths plus
  `CONTOUR_AMOUNT * 1` — in the source `contours` has shape `(1, n)` when
  the lengths are computed (the subtraction is wrapped in an extra pair of
  brackets), so `len(contours)` is 1, not the face count; in simple mode,
  the perimeter `4 * sqrt(bottom)` of a square of the bottom's size. -/
noncomputable def calc_overhang (extended_mode min_volume : Bool)
    (mesh : List Face) (orientation : Vec3) : ℝ × ℝ × ℝ :=
  let total_min := totalMin mesh
  let bottom : ℝ := ((bottomsOf mesh).map Face.area).sum
  let overhangs := overhangsOf mesh orientation
  let plafond : ℝ := plafondOf extended_mode mesh orientation
  let overhang : ℝ :=
    if overhangs.length ≠ 0 then
      (if min_volume then
        2 * ((overhangs.map (overhangTermVolume total_min orientation)).sum)
      else
        2 * ((overhangs.map (overhangTermArea orientation)).sum))
      - PLAFOND_ADV * plafond
    else 0
  let contour : ℝ :=
    if extended_mode then
      if (contoursOf mesh).length ≠ 0 then
        ((contoursOf mesh).map contourEdgeLen).sum + CONTOUR_AMOUNT * 1
      else 0
    else 4 * Real.sqrt bottom
  (bottom, overhang, contour)

lemma calc_overhang_bottom (extended_mode min_volume : Bool)
    (mesh : List Face) (orientation : Vec3) :
    (calc_overhang extended_mode min_volume mesh orientation).1
      = ((bottomsOf mesh).map Face.area).sum := rfl

lemma calc_overhang_overhang (extended_mode min_volume : Bool)
    (mesh : List Face) (orientation : Vec3) :
    (calc_overhang extended_mode min_volume mesh orientation).2.1
      = if (overhangsOf mesh orientation).length ≠ 0 then
          (if min_volume then
            2 * (((overhangsOf mesh orientation).map
              (overhangTermVolume (totalMin mesh) orientation)).sum)
          else
            2 * (((overhangsOf mesh orientation).map
              (overhangTermArea orientation)).sum))
          - PLAFOND_ADV * plafondOf extended_mode mesh orientation
        else 0 := rfl

lemma calc_overhang_contour (extended_mode min_volume : Bool)
    (mesh : List Face) (orientation : Vec3) :
    (calc_overhang extended_mode min_volume mesh orientation).2.2
      = if extended_mode then
          if (contoursOf mesh).length ≠ 0 then
            ((contoursOf mesh).map contourEdgeLen).sum + CONTOUR_AMOUNT * 1
          else 0
        else 4 * Real.sqrt (((bottomsOf mesh).map Face.area).sum) := rfl

/-! ### Bounds on the `ascent` constant -/

lemma ascent_le_zero : ascent ≤ 0 := by
  unfold ascent ASCENT
  apply Real.cos_nonpos_of_pi_div_two_le_of_le
  · linarith [Real.pi_pos]
  · linarith [Real.pi_pos]

lemma ascent_gt : (-0.577 : ℝ) < ascent := by
  have hpi_lt := Real.pi_lt_d6
  have hpi_gt := Real.pi_gt_d6
  set x : ℝ := (119.03812433302157 : ℝ) * Real.pi / 180 with hx
  have hx_pos : 0 < x := by
    rw [hx]
    have := Real.pi_pos
    positivity
  have hx_lt : x < 2.07775 := by
    rw [hx]
    rw [div_lt_iff₀ (by norm_num : (0:ℝ) < 180)]
    nlinarith [hpi_lt]
  have hq_lt : x / 4 < 0.5194375 := by linarith
  have hq_pos : 0 < x / 4 := by linarith
  have hsin_lt : Real.sin (x / 4) < 0.5194375 :=
    lt_trans (Real.sin_lt hq_pos) hq_lt
  have hsin_nonneg : 0 ≤ Real.sin (x / 4) := by
    apply Real.sin_nonneg_of_nonneg_of_le_pi hq_pos.le
    nlinarith [hpi_gt]
  have hcos_half : Real.cos (x / 2) = 1 - 2 * Real.sin (x / 4) ^ 2 := by
    have h2 : Real.cos (2 * (x / 4)) = 2 * Real.cos (x / 4) ^ 2 - 1 :=
      Real.cos_two_mul (x / 4)
    have h3 : Real.sin (x / 4) ^ 2 + Real.cos (x / 4) ^ 2 = 1 :=
      Real.sin_sq_add_cos_sq (x / 4)
    have h4 : (2 : ℝ) * (x / 4) = x / 2 := by ring
    rw [h4] at h2
    linarith
  have hcos_half_lb : (0.46036 : ℝ) < Real.cos (x / 2) := by
    rw [hcos_half]
    nlinarith [hsin_lt, hsin_nonneg]
  have hcos_eq : ascent = 2 * Real.cos (x / 2) ^ 2 - 1 := by
    have h2 : Real.cos (2 * (x / 2)) = 2 * Real.cos (x / 2) ^ 2 - 1 :=
      Real.cos_two_mul (x / 2)
    have h4 : (2 : ℝ) * (x / 2) = x := by ring
    rw [h4] at h2
    unfold ascent ASCENT
    rw [← hx]
    exact h2
  rw [hcos_eq]
  nlinarith [hcos_half_lb]

lemma neg_one_lt_ascent : (-1 : ℝ) < ascent :=
  lt_trans (by norm_num) ascent_gt

/-- The plafond advantage never overturns a plafond face's own overhang
penalty: `PLAFOND_ADV ≤ 2 * (1 + ascent)^2`. -/
lemma plafond_le_penalty : PLAFOND_ADV ≤ 2 * (1 + ascent) ^ 2 := by
  unfold PLAFOND_ADV
  nlinarith [ascent_gt, ascent_le_zero]

/-! ## Preprocessing (`Tweak.preprocess`) -/

/-- One face of the input after the shape dispatch: an area vector (row 0 of
the table) and three vertices.  In the 12-numbers-per-face format the area
vector is supplied by the caller; in the 9-numbers-per-face format it is the
cross product of two edges (`preprocess9`). -/
structure RawFace where
  n : Vec3
  v0 : Vec3
  v1 : Vec3
  v2 : Vec3

/-- The table row built from a raw face: row 4 holds the vertex z
coordinates, row 5 the magnitude of the area vector and the max and median
of the z coordinates. -/
noncomputable def buildRow (r : RawFace) : Face :=
  { normal := r.n, v0 := r.v0, v1 := r.v1, v2 := r.v2,
    p0 := r.v0.z, p1 := r.v1.z, p2 := r.v2.z,
    area := vnorm r.n,
    projMax := max3 r.v0.z r.v1.z r.v2.z,
    projMedian := med3 r.v0.z r.v1.z r.v2.z }

open Classical in
/-- Rows surviving the zero-area filter (`mesh[mesh[:, 5, 0] != 0]`), with
the area vector normalised and the area scalar halved. -/
noncomputable def normalizeRows (rows : List Face) : List Face :=
  (rows.filter fun f => decide (f.area ≠ 0)).map fun f =>
    { f with normal := Vec3.smul (1 / f.area) f.normal, area := f.area / 2 }

/-- The small-face threshold: the list comprehension
`[0.1 * x if self.extended_mode else x for x in [self.NEGL_FACE_SIZE]][0]`
is the plain conditional. -/
noncomputable def negl_size (extended_mode : Bool) : ℝ :=
  if extended_mode then 0.1 * NEGL_FACE_SIZE else NEGL_FACE_SIZE

open Classical in
/-- The small-face filter `mesh[mesh[:, 5, 0] > negl_size]`. -/
noncomputable def filtered_mesh (extended_mode : Bool)
    (rows : List RawFace) : List Face :=
  (normalizeRows (rows.map buildRow)).filter fun f =>
    decide (negl_size extended_mode < f.area)

/-- The builder `Tweak.preprocess` on the 12-numbers-per-face format (area vector
supplied). -/
noncomputable def preprocess (extended_mode : Bool)
    (rows : List RawFace) : List Face :=
  let mesh := normalizeRows (rows.map buildRow)
  if 0 < NEGL_FACE_SIZE then
    if 100 < (filtered_mesh extended_mode rows).length then
      filtered_mesh extended_mode rows
    else mesh
  else mesh

/-- The builder `Tweak.preprocess` on the 9-numbers-per-face format: the area vector is
`np.cross(v1 - v0, v2 - v0)`. -/
noncomputable def preprocess9 (extended_mode : Bool)
    (tris : List (Vec3 × Vec3 × Vec3)) : List Face :=
  preprocess extended_mode (tris.map fun t =>
    ⟨Vec3.cross (Vec3.sub t.2.1 t.1) (Vec3.sub t.2.2 t.1), t.1, t.2.1, t.2.2⟩)

/-! ## Side favouring (`Tweak.favour_side`) -/

/-- The `favside` argument as `Tweak.favour_side` dispatches on it.  The
source accepts only strings and extracts four numbers with `re.search`; the
constructor `parsed` models a string from which the regular expression
extracted the four groups `(x, y, z, f)`, `unparseable` a string on which
`re.search` returned no match (`AttributeError` on `.group`), and `notStr`
any non-string argument. -/
inductive Favside where
  | notStr : Favside
  | unparseable : String → Favside
  | parsed : ℝ → ℝ → ℝ → ℝ → Favside

/-- The favoured side normalised to unit length
(`np.array([x, y, z]) / norm`). -/
noncomputable def favSideVec (x y z : ℝ) : Vec3 :=
  let norm := Real.sqrt (x ^ 2 + y ^ 2 + z ^ 2)
  ⟨x / norm, y / norm, z / norm⟩

/-- A face aligns with the favoured side when the squared distance of its
unit normal to the side is below `ANGLE_SCALE`
(`np.sum(diff * diff, axis=1) < self.ANGLE_SCALE`). -/
def favAligns (x y z : ℝ) (fc : Face) : Prop :=
  Vec3.dot (Vec3.sub fc.normal (favSideVec x y z))
    (Vec3.sub fc.normal (favSideVec x y z)) < ANGLE_SCALE

open Classical in
/-- The weighting `Tweak.favour_side`: scales the area scalar of the faces whose
normalised area vector lies within `ANGLE_SCALE` (squared chordal distance)
of the favoured side; malformed input raises
`AttributeError("Could not parse input: favored side")`, modelled as
`Except.error`. -/
noncomputable def favour_side (mesh : List Face) :
    Favside → Except String (List Face)
  | .notStr => .error ("Could not parse input: favored side")
  | .unparseable _ => .error ("Could not parse input: favored side")
  | .parsed x y z f =>
      let align : Face → Bool := fun fc => decide (favAligns x y z fc)
      let mesh_not_align := mesh.filter fun fc => ! align fc
      let mesh_align := (mesh.filter fun fc => align fc).map fun fc =>
        { fc with area := f * fc.area }
      .ok (mesh_not_align ++ mesh_align)

/-! ## Deduplication (`Tweak.remove_duplicates`) -/

/-- The tolerance `tol_angle = np.sin(alpha * np.pi / 180)` with `alpha = 5` degrees. -/
noncomputable def tol_angle : ℝ := Real.sin (5 * Real.pi / 180)

/-- An orientation candidate: a direction paired with its provisional
weight. -/
abbrev Orient := Vec3 × ℝ

open Classical in
/-- The loop body of `Tweak.remove_duplicates`: scan the input in order,
dropping a candidate iff `np.allclose` finds an already-kept candidate
within `tol_angle`. -/
noncomputable def removeDupGo : List Orient → List Orient → List Orient
  | orientations, [] => orientations
  | orientations, i :: rest =>
      if ∃ j ∈ orientations, allclose i.1 j.1 tol_angle then
        removeDupGo orientations rest
      else
        removeDupGo (orientations ++ [i]) rest

/-- The deduplicator `Tweak.remove_duplicates`. -/
noncomputable def remove_duplicates (old_orients : List Orient) : List Orient :=
  removeDupGo [] old_orients

/-! ## Rotation encoding (`Tweak.euler`) -/

/-- A 3 x 3 real matrix, written row by row. -/
@[ext]
structure Mat3 where
  a11 : ℝ
  a12 : ℝ
  a13 : ℝ
  a21 : ℝ
  a22 : ℝ
  a23 : ℝ
  a31 : ℝ
  a32 : ℝ
  a33 : ℝ

namespace Mat3

def addM (A B : Mat3) : Mat3 :=
  ⟨A.a11 + B.a11, A.a12 + B.a12, A.a13 + B.a13,
   A.a21 + B.a21, A.a22 + B.a22, A.a23 + B.a23,
   A.a31 + B.a31, A.a32 + B.a32, A.a33 + B.a33⟩

def smulM (c : ℝ) (A : Mat3) : Mat3 :=
  ⟨c * A.a11, c * A.a12, c * A.a13,
   c * A.a21, c * A.a22, c * A.a23,
   c * A.a31, c * A.a32, c * A.a33⟩

/-- The identity matrix. -/
def idM : Mat3 := ⟨1, 0, 0, 0, 1, 0, 0, 0, 1⟩

end Mat3

/-- The cross-product (skew-symmetric) matrix of an axis vector. -/
def crossMat (v : Vec3) : Mat3 :=
  ⟨0, -v.z, v.y, v.z, 0, -v.x, -v.y, v.x, 0⟩

/-- The outer product `v vᵀ` of an axis vector with itself. -/
def outerMat (v : Vec3) : Mat3 :=
  ⟨v.x * v.x, v.x * v.y, v.x * v.z,
   v.y * v.x, v.y * v.y, v.y * v.z,
   v.z * v.x, v.z * v.y, v.z * v.z⟩

/-- The Rodrigues axis-angle rotation matrix
`cos φ · I + sin φ · K(v) + (1 - cos φ) · v vᵀ`, stated structurally as the
reference the source's hand-written matrix is compared with. -/
noncomputable def rodrigues (v : Vec3) (phi : ℝ) : Mat3 :=
  Mat3.addM (Mat3.addM (Mat3.smulM (Real.cos phi) Mat3.idM)
    (Mat3.smulM (Real.sin phi) (crossMat v)))
    (Mat3.smulM (1 - Real.cos phi) (outerMat v))

/-- The nine matrix entries exactly as `Tweak.euler` writes them out. -/
noncomputable def rotational_matrix (v : Vec3) (phi : ℝ) : Mat3 :=
  ⟨v.x * v.x * (1 - Real.cos phi) + Real.cos phi,
   v.x * v.y * (1 - Real.cos phi) - v.z * Real.sin phi,
   v.x * v.z * (1 - Real.cos phi) + v.y * Real.sin phi,
   v.y * v.x * (1 - Real.cos phi) + v.z * Real.sin phi,
   v.y * v.y * (1 - Real.cos phi) + Real.cos phi,
   v.y * v.z * (1 - Real.cos phi) - v.x * Real.sin phi,
   v.z * v.x * (1 - Real.cos phi) - v.y * Real.sin phi,
   v.z * v.y * (1 - Real.cos phi) + v.x * Real.sin phi,
   v.z * v.z * (1 - Real.cos phi) + Real.cos phi⟩

/-- Rounding `float("{:2f}".format(x))`: fixed-point formatting with the default six
decimal digits, i.e. rounding to the nearest multiple of `10^-6`. -/
noncomputable def round6 (x : ℝ) : ℝ := (⌊x * 1000000 + 1 / 2⌋ : ℤ) / 1000000

open Classical in
/-- The encoder `Tweak.euler` applied to the best side's alignment vector: the rotation
axis, the rotation angle and the rotational matrix. -/
noncomputable def euler (bestside : Vec3) : Vec3 × ℝ × Mat3 :=
  let (rotation_axis, phi) :=
    if allclose bestside ⟨0, 0, -1⟩ VECTOR_TOL then
      ((⟨1, 0, 0⟩ : Vec3), Real.pi)
    else if allclose bestside ⟨0, 0, 1⟩ VECTOR_TOL then
      ((⟨1, 0, 0⟩ : Vec3), (0 : ℝ))
    else
      let phi := round6 (Real.pi - Real.arccos (-bestside.z))
      let raw : Vec3 := ⟨-bestside.y, bestside.x, 0⟩
      let len := Real.sqrt (raw.x ^ 2 + raw.y ^ 2 + raw.z ^ 2)
      (((⟨round6 (raw.x / len), round6 (raw.y / len),
          round6 (raw.z / len)⟩ : Vec3)), phi)
  (rotation_axis, phi, rotational_matrix rotation_axis phi)

/-- Normalisation `v / ||v||`, the normalisation the specification's general case uses. -/
noncomputable def normalizeVec (v : Vec3) : Vec3 := Vec3.smul (1 / vnorm v) v

/-! ## The search driver (`Tweak.__init__`) -/

/-- One scored orientation: `[orientation, bottom, overhang, contour,
unprintability]` as appended to `results`. -/
structure ScoredResult where
  alignment : Vec3
  bottom : ℝ
  overhang : ℝ
  contour : ℝ
  unprintability : ℝ

instance : Inhabited ScoredResult := ⟨⟨⟨0, 0, 0⟩, 0, 0, 0, 0⟩⟩

/-- The ordering the driver sorts scored results by
(`results[:, 4].argsort()`). -/
def byUnprintability (a b : ScoredResult) : Prop :=
  a.unprintability ≤ b.unprintability

instance : IsTotal ScoredResult byUnprintability :=
  ⟨fun a b => le_total a.unprintability b.unprintability⟩

instance : IsTrans ScoredResult byUnprintability :=
  ⟨fun _ _ _ h1 h2 => le_trans h1 h2⟩

noncomputable instance : DecidableRel byUnprintability :=
  fun _ _ => Classical.propDecidable _

/-- The scoring loop of `Tweak.__init__`: for each candidate side, negate it,
project the (stateful) mesh table, compute the overhang triple and the
unprintability.  The mutated table is threaded through, exactly as
`self.mesh` is in the source. -/
noncomputable def driverLoop (extended_mode min_volume : Bool) :
    List Face → List Vec3 → List ScoredResult × List Face
  | mesh, [] => ([], mesh)
  | mesh, side :: rest =>
      let orientation := Vec3.neg side
      let m := project_vertices orientation mesh
      let r := calc_overhang extended_mode min_volume m orientation
      let res : ScoredResult :=
        ⟨orientation, r.1, r.2.1, r.2.2,
          target_function r.1 r.2.1 r.2.2 min_volume⟩
      let rec_result := driverLoop extended_mode min_volume m rest
      (res :: rec_result.1, rec_result.2)

open Classical in
/-- The list `best_results`: the scored results sorted ascending by unprintability
(`results[results[:, 4].argsort()]`; `argsort` sorts ascending, and only the
ordering matters to the claims, so a sorting algorithm with the same
contract is used). -/
noncomputable def best_results (rs : List ScoredResult) : List ScoredResult :=
  List.insertionSort byUnprintability rs

/-- The full ranked list the driver keeps (`self.best_5`): the initial
candidate list always starts with the `z_axis = -[0,0,1]` side. -/
noncomputable def tweak (extended_mode min_volume : Bool) (mesh : List Face)
    (cands : List Vec3) : List ScoredResult :=
  best_results
    (driverLoop extended_mode min_volume mesh ((⟨0, 0, -1⟩ : Vec3) :: cands)).1

/-- The fields `Tweak.__init__` exposes from the rank-0 result. -/
structure TweakOutput where
  alignment : Vec3
  bottom_area : ℝ
  overhang_area : ℝ
  contour : ℝ
  unprintability : ℝ
  rotation : Vec3 × ℝ × Mat3

/-- The reported result: the element of rank 0 of the sorted list, with its
euler encoding. -/
noncomputable def tweakOutput (extended_mode min_volume : Bool)
    (mesh : List Face) (cands : List Vec3) : TweakOutput :=
  let best := (tweak extended_mode min_volume mesh cands).headI
  ⟨best.alignment, best.bottom, best.overhang, best.contour,
    best.unprintability, euler best.alignment⟩

/-! ## List helper lemmas -/

lemma sum_map_nonneg {α : Type} (l : List α) (g : α → ℝ)
    (h : ∀ a ∈ l, 0 ≤ g a) : 0 ≤ (l.map g).sum := by
  induction l with
  | nil => simp
  | cons a t ih =>
    simp only [List.map_cons, List.sum_cons]
    have h1 := h a (List.mem_cons_self a t)
    have h2 := ih fun b hb => h b (List.mem_cons_of_mem a hb)
    linarith

lemma sum_map_le_pointwise {α : Type} (l : List α) (g h : α → ℝ)
    (hp : ∀ a ∈ l, g a ≤ h a) : (l.map g).sum ≤ (l.map h).sum := by
  induction l with
  | nil => simp
  | cons a t ih =>
    simp only [List.map_cons, List.sum_cons]
    have h1 := hp a (List.mem_cons_self a t)
    have h2 := ih fun b hb => hp b (List.mem_cons_of_mem a hb)
    linarith

lemma sum_map_filter_le {α : Type} (l : List α) (p : α → Bool) (g : α → ℝ)
    (h : ∀ a ∈ l, 0 ≤ g a) :
    ((l.filter p).map g).sum ≤ (l.map g).sum := by
  induction l with
  | nil => simp
  | cons a t ih =>
    have h1 := h a (List.mem_cons_self a t)
    have h2 := ih fun b hb => h b (List.mem_cons_of_mem a hb)
    by_cases hp : p a
    · simp only [List.filter_cons, hp, if_pos, List.map_cons, List.sum_cons]
      linarith
    · simp only [List.filter_cons, Bool.not_eq_true] at *
      simp only [hp, Bool.false_eq_true, if_neg, not_false_iff,
        List.map_cons, List.sum_cons]
      linarith

lemma sum_map_mul_const {α : Type} (l : List α) (c : ℝ) (g : α → ℝ) :
    (l.map fun a => c * g a).sum = c * (l.map g).sum := by
  induction l with
  | nil => simp
  | cons a t ih =>
    simp only [List.map_cons, List.sum_cons, ih]
    ring

/-! ## Claim C9: projection overwrites only the projection columns -/

lemma projFace_overwrite (o o' : Vec3) (f : Face) :
    projFace o (projFace o' f) = projFace o f := rfl

/-- Claim C9: `project_vertices` followed by `calc_overhang` overwrites only
the per-face projection columns; the normal, vertex and area columns are
untouched by every scoring pass, later projections fully overwrite earlier
ones, and scoring the same orientation twice yields the identical
`(bottom, overhang, contour)` triple. -/
theorem project_vertices_frame_idempotent (o : Vec3) (mesh : List Face)
    (extended_mode min_volume : Bool) :
    ((project_vertices o mesh).map fun f =>
        (f.normal, f.v0, f.v1, f.v2, f.area))
      = (mesh.map fun f => (f.normal, f.v0, f.v1, f.v2, f.area)) ∧
    (∀ o', project_vertices o (project_vertices o' mesh)
      = project_vertices o mesh) ∧
    calc_overhang extended_mode min_volume
        (project_vertices o (project_vertices o mesh)) o
      = calc_overhang extended_mode min_volume (project_vertices o mesh) o := by
  have hover : ∀ o', project_vertices o (project_vertices o' mesh)
      = project_vertices o mesh := by
    intro o'
    unfold project_vertices
    rw [List.map_map]
    rfl
  refine ⟨?_, hover, ?_⟩
  · unfold project_vertices
    rw [List.map_map]
    rfl
  · rw [hover o]

/-! ## Claim C1: the driver's ranked results -/

lemma driverLoop_length (extended_mode min_volume : Bool)
    (sides : List Vec3) :
    ∀ mesh, ((driverLoop extended_mode min_volume mesh sides).1).length
      = sides.length := by
  induction sides with
  | nil => intro mesh; rfl
  | cons s rest ih =>
    intro mesh
    simp only [driverLoop, List.length_cons]
    rw [ih]

/-- A sample table row used to instantiate hypotheses at a concrete input. -/
def sampleFace : Face :=
  ⟨⟨0, 0, 1⟩, ⟨0, 0, 0⟩, ⟨1, 0, 0⟩, ⟨0, 1, 0⟩, 0, 0, 0, 1, 0, 0⟩

/-- Claim C1: after scoring all candidate orientations the driver keeps the
full list of scored results sorted ascending by unprintability; the reported
output (alignment, bottom, overhang, contour, unprintability, rotation) is
the element of rank 0, and its unprintability is less than or equal to that
of every evaluated candidate. -/
theorem tweak_sorted_rank0 (extended_mode min_volume : Bool)
    (mesh : List Face) (cands : List Vec3) (_hm : mesh ≠ []) :
    List.Sorted byUnprintability (tweak extended_mode min_volume mesh cands) ∧
    (tweak extended_mode min_volume mesh cands).Perm
      (driverLoop extended_mode min_volume mesh
        ((⟨0, 0, -1⟩ : Vec3) :: cands)).1 ∧
    tweakOutput extended_mode min_volume mesh cands =
      ⟨((tweak extended_mode min_volume mesh cands).headI).alignment,
       ((tweak extended_mode min_volume mesh cands).headI).bottom,
       ((tweak extended_mode min_volume mesh cands).headI).overhang,
       ((tweak extended_mode min_volume mesh cands).headI).contour,
       ((tweak extended_mode min_volume mesh cands).headI).unprintability,
       euler ((tweak extended_mode min_volume mesh cands).headI).alignment⟩ ∧
    (∀ r ∈ (driverLoop extended_mode min_volume mesh
        ((⟨0, 0, -1⟩ : Vec3) :: cands)).1,
      (tweakOutput extended_mode min_volume mesh cands).unprintability
        ≤ r.unprintability) := by
  have hsorted : List.Sorted byUnprintability
      (tweak extended_mode min_volume mesh cands) :=
    List.sorted_insertionSort byUnprintability _
  have hperm : (tweak extended_mode min_volume mesh cands).Perm
      (driverLoop extended_mode min_volume mesh
        ((⟨0, 0, -1⟩ : Vec3) :: cands)).1 :=
    List.perm_insertionSort byUnprintability _
  refine ⟨hsorted, hperm, rfl, ?_⟩
  intro r hr
  have hrmem : r ∈ tweak extended_mode min_volume mesh cands :=
    hperm.mem_iff.mpr hr
  have hlen : (tweak extended_mode min_volume mesh cands).length ≠ 0 := by
    rw [hperm.length_eq, driverLoop_length]
    simp
  cases hS : tweak extended_mode min_volume mesh cands with
  | nil => rw [hS] at hlen; simp at hlen
  | cons b t =>
    rw [hS] at hrmem hsorted
    have hhead : (tweakOutput extended_mode min_volume mesh cands
        ).unprintability
        = b.unprintability := by
      unfold tweakOutput
      rw [hS]
      rfl
    rw [hhead]
    rcases List.mem_cons.mp hrmem with h | h
    · rw [h]
    · exact List.rel_of_sorted_cons hsorted r h

/-- Witness for Claim C1's theorem at a one-face table and no extra
candidates. -/
theorem tweak_sorted_rank0_witness :
    ([sampleFace] ≠ []) ∧
    (List.Sorted byUnprintability (tweak false false [sampleFace] []) ∧
    (tweak false false [sampleFace] []).Perm
      (driverLoop false false [sampleFace] ((⟨0, 0, -1⟩ : Vec3) :: [])).1 ∧
    tweakOutput false false [sampleFace] [] =
      ⟨((tweak false false [sampleFace] []).headI).alignment,
       ((tweak false false [sampleFace] []).headI).bottom,
       ((tweak false false [sampleFace] []).headI).overhang,
       ((tweak false false [sampleFace] []).headI).contour,
       ((tweak false false [sampleFace] []).headI).unprintability,
       euler ((tweak false false [sampleFace] []).headI).alignment⟩ ∧
    (∀ r ∈ (driverLoop false false [sampleFace]
        ((⟨0, 0, -1⟩ : Vec3) :: [])).1,
      (tweakOutput false false [sampleFace] []).unprintability
        ≤ r.unprintability)) :=
  ⟨by simp, tweak_sorted_rank0 false false [sampleFace] [] (by simp)⟩

/-! ## Claim C2: the sign of the scoring triple -/

lemma min3_le_a (a b c : ℝ) : min3 a b c ≤ a := min_le_left _ _

lemma min3_le_b (a b c : ℝ) : min3 a b c ≤ b :=
  le_trans (min_le_right _ _) (min_le_left _ _)

lemma min3_le_c (a b c : ℝ) : min3 a b c ≤ c :=
  le_trans (min_le_right _ _) (min_le_right _ _)

lemma vnorm_nonneg (v : Vec3) : 0 ≤ vnorm v := Real.sqrt_nonneg _

lemma contourEdgeLen_nonneg (f : Face) : 0 ≤ contourEdgeLen f := by
  unfold contourEdgeLen
  split_ifs <;> exact vnorm_nonneg _

lemma mem_of_mem_overhangsOf {mesh : List Face} {o : Vec3} {f : Face}
    (hf : f ∈ overhangsOf mesh o) : f ∈ mesh := by
  unfold overhangsOf at hf
  exact List.mem_of_mem_filter (List.mem_of_mem_filter hf)

lemma mem_project_vertices {o : Vec3} {mesh : List Face} {f : Face} :
    f ∈ project_vertices o mesh ↔ ∃ g ∈ mesh, projFace o g = f := by
  unfold project_vertices
  exact List.mem_map

lemma projFace_p0 (o : Vec3) (g : Face) :
    (projFace o g).p0 = Vec3.dot (projFace o g).v0 o := rfl

lemma projFace_p1 (o : Vec3) (g : Face) :
    (projFace o g).p1 = Vec3.dot (projFace o g).v1 o := rfl

lemma projFace_p2 (o : Vec3) (g : Face) :
    (projFace o g).p2 = Vec3.dot (projFace o g).v2 o := rfl

lemma projFace_area (o : Vec3) (g : Face) :
    (projFace o g).area = g.area := rfl

lemma overhangTermArea_nonneg {o : Vec3} {f : Face} (h : 0 ≤ f.area) :
    0 ≤ overhangTermArea o f := by
  simp only [overhangTermArea]
  exact mul_nonneg h (sq_nonneg _)

lemma overhangTermVolume_nonneg {o : Vec3} {f : Face} (tm : ℝ)
    (hp0 : f.p0 = Vec3.dot f.v0 o) (hp1 : f.p1 = Vec3.dot f.v1 o)
    (hp2 : f.p2 = Vec3.dot f.v2 o) (harea : 0 ≤ f.area)
    (htm : tm ≤ faceMin f) : 0 ≤ overhangTermVolume tm o f := by
  simp only [overhangTermVolume]
  have hc : Vec3.dot (Vec3.smul (1 / 3) (Vec3.add (Vec3.add f.v0 f.v1) f.v2))
      o = (f.p0 + f.p1 + f.p2) / 3 := by
    rw [hp0, hp1, hp2]
    simp only [Vec3.dot, Vec3.smul, Vec3.add]
    ring
  rw [hc]
  have h0 : tm ≤ f.p0 := le_trans htm (min3_le_a _ _ _)
  have h1 : tm ≤ f.p1 := le_trans htm (min3_le_b _ _ _)
  have h2 : tm ≤ f.p2 := le_trans htm (min3_le_c _ _ _)
  have hh : 0 ≤ (f.p0 + f.p1 + f.p2) / 3 - tm := by linarith
  exact mul_nonneg (mul_nonneg hh harea) (sq_nonneg _)

lemma dot_neg_left (o : Vec3) : Vec3.dot (Vec3.neg o) o = -Vec3.dot o o := by
  simp only [Vec3.dot, Vec3.neg]
  ring

lemma overhangTermArea_plafond {o : Vec3} (hunit : Vec3.dot o o = 1)
    {f : Face} (hn : f.normal = Vec3.neg o) :
    overhangTermArea o f = f.area * (1 + ascent) ^ 2 := by
  simp only [overhangTermArea]
  rw [hn, dot_neg_left, hunit]
  have hneg : (-1 : ℝ) - ascent < 0 := by linarith [neg_one_lt_ascent]
  rw [if_pos hneg]
  ring

/-- Claim C2, amended: for every table with nonnegative areas and every unit
candidate orientation, after `project_vertices` the triple returned by
`calc_overhang` has `bottom ≥ 0` and `contour ≥ 0` in every combination of
`extended_mode` and `min_volume`, and `overhang ≥ 0` in every combination
except `extended_mode ∧ min_volume` (where the plafond correction can
overshoot the height-weighted penalty). -/
theorem calc_overhang_nonneg (extended_mode min_volume : Bool)
    (mesh : List Face) (o : Vec3) (hunit : Vec3.dot o o = 1)
    (harea : ∀ f ∈ mesh, 0 ≤ f.area) :
    0 ≤ (calc_overhang extended_mode min_volume
      (project_vertices o mesh) o).1 ∧
    0 ≤ (calc_overhang extended_mode min_volume
      (project_vertices o mesh) o).2.2 ∧
    (¬(extended_mode = true ∧ min_volume = true) →
      0 ≤ (calc_overhang extended_mode min_volume
        (project_vertices o mesh) o).2.1) := by
  set m := project_vertices o mesh with hm
  have harea_m : ∀ f ∈ m, 0 ≤ f.area := by
    intro f hf
    obtain ⟨g, hg, hfg⟩ := mem_project_vertices.mp hf
    rw [← hfg, projFace_area]
    exact harea g hg
  refine ⟨?_, ?_, ?_⟩
  · rw [calc_overhang_bottom]
    apply sum_map_nonneg
    intro f hf
    exact harea_m f (List.mem_of_mem_filter hf)
  · rw [calc_overhang_contour]
    cases extended_mode with
    | false =>
      simp only [Bool.false_eq_true, if_neg, not_false_iff]
      have := Real.sqrt_nonneg (((bottomsOf m).map Face.area).sum)
      linarith
    | true =>
      simp only [if_pos]
      by_cases hlen : (contoursOf m).length ≠ 0
      · rw [if_pos hlen]
        have h1 : 0 ≤ ((contoursOf m).map contourEdgeLen).sum :=
          sum_map_nonneg _ _ fun f _ => contourEdgeLen_nonneg f
        have h2 : (0 : ℝ) ≤ CONTOUR_AMOUNT := by norm_num [CONTOUR_AMOUNT]
        linarith
      · rw [if_neg hlen]
  · intro hexc
    rw [calc_overhang_overhang]
    by_cases hlen : (overhangsOf m o).length ≠ 0
    case neg => rw [if_neg hlen]
    rw [if_pos hlen]
    have hOarea : ∀ f ∈ overhangsOf m o, 0 ≤ f.area := fun f hf =>
      harea_m f (mem_of_mem_overhangsOf hf)
    have hAreaTerms : ∀ f ∈ overhangsOf m o, 0 ≤ overhangTermArea o f :=
      fun f hf => overhangTermArea_nonneg (hOarea f hf)
    have hVolTerms : ∀ f ∈ overhangsOf m o,
        0 ≤ overhangTermVolume (totalMin m) o f := by
      intro f hf
      have hfm : f ∈ m := mem_of_mem_overhangsOf hf
      obtain ⟨g, _, hfg⟩ := mem_project_vertices.mp hfm
      refine overhangTermVolume_nonneg (totalMin m) ?_ ?_ ?_
        (hOarea f hf) (totalMin_le hfm)
      · rw [← hfg]; exact projFace_p0 o g
      · rw [← hfg]; exact projFace_p1 o g
      · rw [← hfg]; exact projFace_p2 o g
    cases extended_mode with
    | false =>
      have hpla : plafondOf false m o = 0 := rfl
      rw [hpla, mul_zero, sub_zero]
      cases min_volume with
      | false =>
        simp only [Bool.false_eq_true, if_neg, not_false_iff]
        have := sum_map_nonneg _ _ hVolTerms
        have h2 := sum_map_nonneg _ _ hAreaTerms
        linarith
      | true =>
        simp only [if_pos]
        have := sum_map_nonneg _ _ hVolTerms
        linarith
    | true =>
      cases min_volume with
      | true => exact absurd ⟨rfl, rfl⟩ hexc
      | false =>
        simp only [Bool.false_eq_true, if_neg, not_false_iff]
        classical
        have hpla : plafondOf true m o =
            (((overhangsOf m o).filter fun f =>
              decide (f.normal = Vec3.neg o)).map Face.area).sum := by
          simp only [plafondOf, if_pos]
        set Pl := (overhangsOf m o).filter fun f =>
          decide (f.normal = Vec3.neg o) with hPl
        have hPlmem : ∀ f ∈ Pl, f ∈ overhangsOf m o := by
          intro f hf
          exact List.mem_of_mem_filter hf
        have hPlnormal : ∀ f ∈ Pl, f.normal = Vec3.neg o := by
          intro f hf
          have := (List.mem_filter.mp hf).2
          exact of_decide_eq_true this
        have h1 : ((Pl.map (overhangTermArea o)).sum)
            ≤ (((overhangsOf m o).map (overhangTermArea o)).sum) := by
          rw [hPl]
          exact sum_map_filter_le _ _ _ hAreaTerms
        have h2 : ∀ f ∈ Pl, PLAFOND_ADV * f.area ≤ 2 * overhangTermArea o f := by
          intro f hf
          rw [overhangTermArea_plafond hunit (hPlnormal f hf)]
          have ha := harea_m f (mem_of_mem_overhangsOf (hPlmem f hf))
          nlinarith [plafond_le_penalty]
        have h3 : ((Pl.map fun f => PLAFOND_ADV * f.area).sum)
            ≤ ((Pl.map fun f => 2 * overhangTermArea o f).sum) :=
          sum_map_le_pointwise _ _ _ h2
        have h4 : ((Pl.map fun f => PLAFOND_ADV * f.area).sum)
            = PLAFOND_ADV * ((Pl.map Face.area).sum) :=
          sum_map_mul_const _ _ _
        have h5 : ((Pl.map fun f => 2 * overhangTermArea o f).sum)
            = 2 * ((Pl.map (overhangTermArea o)).sum) :=
          sum_map_mul_const _ _ _
        rw [hpla]
        linarith

/-- Witness for Claim C2's amended theorem: the sample one-face table with
the unit orientation `(0, 0, 1)` in simple area mode. -/
theorem calc_overhang_nonneg_witness :
    (Vec3.dot ⟨0, 0, 1⟩ ⟨0, 0, 1⟩ = 1 ∧ ∀ f ∈ [sampleFace], 0 ≤ f.area) ∧
    (0 ≤ (calc_overhang false false
      (project_vertices ⟨0, 0, 1⟩ [sampleFace]) ⟨0, 0, 1⟩).1 ∧
    0 ≤ (calc_overhang false false
      (project_vertices ⟨0, 0, 1⟩ [sampleFace]) ⟨0, 0, 1⟩).2.2 ∧
    (¬(false = true ∧ false = true) →
      0 ≤ (calc_overhang false false
        (project_vertices ⟨0, 0, 1⟩ [sampleFace]) ⟨0, 0, 1⟩).2.1)) := by
  have h1 : Vec3.dot (⟨0, 0, 1⟩ : Vec3) ⟨0, 0, 1⟩ = 1 := by
    simp [Vec3.dot]
  have h2 : ∀ f ∈ [sampleFace], 0 ≤ f.area := by
    intro f hf
    simp only [List.mem_singleton] at hf
    rw [hf]
    norm_num [sampleFace]
  exact ⟨⟨h1, h2⟩, calc_overhang_nonneg false false [sampleFace] _ h1 h2⟩

/-! ## Evaluation helpers for one-face tables -/

lemma filter_singleton_pos {α : Type} (p : α → Bool) (a : α)
    (h : p a = true) : [a].filter p = [a] := by
  simp [List.filter_cons, h]

lemma filter_singleton_neg {α : Type} (p : α → Bool) (a : α)
    (h : p a = false) : [a].filter p = [] := by
  simp [List.filter_cons, h]

lemma sqrt_eval {x y : ℝ} (hy : 0 ≤ y) (h : x = y ^ 2) :
    Real.sqrt x = y := by rw [h, Real.sqrt_sq hy]

lemma normalizeRows_singleton (f : Face) (h : f.area ≠ 0) :
    normalizeRows [f] = [{ f with
      normal := Vec3.smul (1 / f.area) f.normal, area := f.area / 2 }] := by
  unfold normalizeRows
  rw [filter_singleton_pos (fun g => decide (g.area ≠ 0)) f
    (decide_eq_true h)]
  rfl

lemma normalizeRows_length_le (rows : List Face) :
    (normalizeRows rows).length ≤ rows.length := by
  unfold normalizeRows
  rw [List.length_map]
  exact List.length_filter_le _ _

/-- A table of at most 100 rows is never small-face filtered. -/
lemma preprocess_small (extended_mode : Bool) (rows : List RawFace)
    (hlen : rows.length ≤ 100) :
    preprocess extended_mode rows = normalizeRows (rows.map buildRow) := by
  simp only [preprocess]
  rw [if_pos (show (0 : ℝ) < NEGL_FACE_SIZE by norm_num [NEGL_FACE_SIZE])]
  have h1 : (filtered_mesh extended_mode rows).length ≤ 100 := by
    calc (filtered_mesh extended_mode rows).length
        ≤ (normalizeRows (rows.map buildRow)).length :=
          List.length_filter_le _ _
      _ ≤ (rows.map buildRow).length := normalizeRows_length_le _
      _ = rows.length := List.length_map _ _
      _ ≤ 100 := hlen
  rw [if_neg (Nat.not_lt.mpr h1)]

lemma preprocess_singleton (extended_mode : Bool) (r : RawFace)
    (h : vnorm r.n ≠ 0) :
    preprocess extended_mode [r] = [{ buildRow r with
      normal := Vec3.smul (1 / vnorm r.n) r.n, area := vnorm r.n / 2 }] := by
  rw [preprocess_small extended_mode [r] (by simp)]
  rw [show ([r].map buildRow) = [buildRow r] from rfl]
  exact normalizeRows_singleton (buildRow r) h

/-! ## Claim C2, counterexample: a plafond face in extended min-volume mode -/

/-- The 12-number input face of the counterexample: area vector `(0,0,-2)`,
vertices `(0,0,0)`, `(1,0,0)`, `(0,1,0.09)`. -/
noncomputable def rawC2 : RawFace :=
  ⟨⟨0, 0, -2⟩, ⟨0, 0, 0⟩, ⟨1, 0, 0⟩, ⟨0, 1, 9 / 100⟩⟩

/-- The table row `preprocess` and `project_vertices (0,0,1)` produce from
`rawC2`. -/
noncomputable def faceC2 : Face :=
  ⟨⟨0, 0, -1⟩, ⟨0, 0, 0⟩, ⟨1, 0, 0⟩, ⟨0, 1, 9 / 100⟩,
   0, 0, 9 / 100, 1, 9 / 100, 0⟩

lemma vnorm_rawC2 : vnorm rawC2.n = 2 := by
  have hd : Vec3.dot rawC2.n rawC2.n = 4 := by
    norm_num [rawC2, Vec3.dot]
  unfold vnorm
  rw [hd]
  exact sqrt_eval (by norm_num) (by norm_num)

lemma meshC2_eval :
    project_vertices ⟨0, 0, 1⟩ (preprocess true [rawC2]) = [faceC2] := by
  rw [preprocess_singleton true rawC2 (by rw [vnorm_rawC2]; norm_num)]
  simp only [project_vertices, List.map_cons, List.map_nil]
  congr 1
  rw [vnorm_rawC2]
  simp only [projFace, buildRow, rawC2, faceC2, Vec3.smul, Vec3.dot,
    max3, med3, Face.mk.injEq, Vec3.mk.injEq]
  norm_num

lemma totalMin_faceC2 : totalMin [faceC2] = 0 := by
  show min3 faceC2.p0 faceC2.p1 faceC2.p2 = 0
  norm_num [faceC2, min3]

lemma overhangsOf_faceC2 : overhangsOf [faceC2] ⟨0, 0, 1⟩ = [faceC2] := by
  have h1 : Vec3.dot faceC2.normal ⟨0, 0, 1⟩ < ascent := by
    have hd : Vec3.dot faceC2.normal ⟨0, 0, 1⟩ = -1 := by
      norm_num [faceC2, Vec3.dot]
    rw [hd]
    exact neg_one_lt_ascent
  have h2 : (0 : ℝ) + FIRST_LAY_H < faceC2.projMax := by
    norm_num [faceC2, FIRST_LAY_H]
  unfold overhangsOf
  rw [totalMin_faceC2]
  simp only [List.filter_cons, List.filter_nil, decide_eq_true_eq,
    h1, h2, if_true]

lemma plafondOf_faceC2 : plafondOf true [faceC2] ⟨0, 0, 1⟩ = 1 := by
  have h1 : faceC2.normal = Vec3.neg ⟨0, 0, 1⟩ := by
    simp only [faceC2, Vec3.neg, Vec3.mk.injEq]
    norm_num
  unfold plafondOf
  rw [if_pos rfl, overhangsOf_faceC2]
  simp only [List.filter_cons, List.filter_nil, decide_eq_true_eq,
    h1, if_true, List.map_cons, List.map_nil, List.sum_cons, List.sum_nil]
  norm_num [faceC2]

/-- Claim C2, counterexample: in `extended_mode` with `min_volume`, the
preprocessed projected one-face table from `rawC2` (a flat ceiling lying
`0.09` above the lowest point) gets a strictly negative overhang: the
plafond correction `PLAFOND_ADV * area` outweighs the height-weighted
penalty `2 * 0.03 * area * (1 + ascent)^2`. -/
theorem calc_overhang_negative_overhang :
    (calc_overhang true true
      (project_vertices ⟨0, 0, 1⟩ (preprocess true [rawC2])) ⟨0, 0, 1⟩).2.1
      < 0 := by
  rw [meshC2_eval, calc_overhang_overhang, overhangsOf_faceC2,
    plafondOf_faceC2, totalMin_faceC2]
  rw [if_pos (show ([faceC2] : List Face).length ≠ 0 by simp)]
  rw [if_pos (rfl : true = true)]
  have hterm : overhangTermVolume 0 ⟨0, 0, 1⟩ faceC2
      = (3 / 100) * ((-1 - ascent) * 1) ^ 2 := by
    simp only [overhangTermVolume]
    have hc : Vec3.dot (Vec3.smul (1 / 3)
        (Vec3.add (Vec3.add faceC2.v0 faceC2.v1) faceC2.v2)) ⟨0, 0, 1⟩
        = 3 / 100 := by
      norm_num [faceC2, Vec3.dot, Vec3.smul, Vec3.add]
    have hi : Vec3.dot faceC2.normal ⟨0, 0, 1⟩ - ascent = -1 - ascent := by
      norm_num [faceC2, Vec3.dot]
    rw [hc, hi]
    rw [if_pos (show (-1 : ℝ) - ascent < 0 by linarith [neg_one_lt_ascent])]
    have ha : faceC2.area = 1 := by norm_num [faceC2]
    rw [ha]
    ring
  simp only [List.map_cons, List.map_nil, List.sum_cons, List.sum_nil, hterm]
  have hsq : (1 + ascent) ^ 2 ≤ 1 := by
    nlinarith [neg_one_lt_ascent, ascent_le_zero]
  have hexp : ((-1 - ascent) * 1) ^ 2 = (1 + ascent) ^ 2 := by ring
  rw [hexp]
  unfold PLAFOND_ADV
  nlinarith [hsq, sq_nonneg (1 + ascent)]

/-! ## Claim C4: the contour default when no contour face exists -/

/-- Claim C4, amended: in extended mode, when no face of the table satisfies
the contour-straddling condition (median projection below the bottom band),
`calc_overhang` returns a contour of exactly `0` (not a positive
constant). -/
theorem calc_overhang_contour_empty (min_volume : Bool) (mesh : List Face)
    (orientation : Vec3)
    (h : ∀ f ∈ mesh, ¬(f.projMedian < totalMin mesh + FIRST_LAY_H)) :
    (calc_overhang true min_volume mesh orientation).2.2 = 0 := by
  rw [calc_overhang_contour]
  have hc : contoursOf mesh = [] := by
    unfold contoursOf
    rw [List.filter_eq_nil_iff]
    intro f hf
    simpa using h f hf
  rw [if_pos rfl, hc]
  simp

/-- The 12-number input face of the C4 evaluation: area vector `(0,0,3)`,
vertices `(0,0,0)`, `(1,0,1)`, `(0,1,2)` — a slanted face whose median
projection lies well above the first-layer band. -/
noncomputable def rawC4 : RawFace :=
  ⟨⟨0, 0, 3⟩, ⟨0, 0, 0⟩, ⟨1, 0, 1⟩, ⟨0, 1, 2⟩⟩

/-- The table row `preprocess` and `project_vertices (0,0,1)` produce from
`rawC4`. -/
noncomputable def faceC4 : Face :=
  ⟨⟨0, 0, 1⟩, ⟨0, 0, 0⟩, ⟨1, 0, 1⟩, ⟨0, 1, 2⟩, 0, 1, 2, 3 / 2, 2, 1⟩

lemma vnorm_rawC4 : vnorm rawC4.n = 3 := by
  have hd : Vec3.dot rawC4.n rawC4.n = 9 := by
    norm_num [rawC4, Vec3.dot]
  unfold vnorm
  rw [hd]
  exact sqrt_eval (by norm_num) (by norm_num)

lemma meshC4_eval :
    project_vertices ⟨0, 0, 1⟩ (preprocess true [rawC4]) = [faceC4] := by
  rw [preprocess_singleton true rawC4 (by rw [vnorm_rawC4]; norm_num)]
  simp only [project_vertices, List.map_cons, List.map_nil]
  congr 1
  rw [vnorm_rawC4]
  simp only [projFace, buildRow, rawC4, faceC4, Vec3.smul, Vec3.dot,
    max3, med3, Face.mk.injEq, Vec3.mk.injEq]
  norm_num

lemma totalMin_faceC4 : totalMin [faceC4] = 0 := by
  show min3 faceC4.p0 faceC4.p1 faceC4.p2 = 0
  norm_num [faceC4, min3]

lemma meshC4_no_contour :
    ∀ f ∈ [faceC4],
      ¬(f.projMedian < totalMin [faceC4] + FIRST_LAY_H) := by
  intro f hf
  rw [List.mem_singleton] at hf
  subst hf
  rw [totalMin_faceC4]
  norm_num [faceC4, FIRST_LAY_H]

/-- Claim C4, counterexample: on the preprocessed projected one-face table
from `rawC4`, extended mode finds no contour-straddling face and
`calc_overhang` returns a contour of exactly `0`, not a strictly positive
constant. -/
theorem calc_overhang_contour_zero_cex :
    (∀ f ∈ project_vertices ⟨0, 0, 1⟩ (preprocess true [rawC4]),
      ¬(f.projMedian <
        totalMin (project_vertices ⟨0, 0, 1⟩ (preprocess true [rawC4]))
          + FIRST_LAY_H)) ∧
    (calc_overhang true false
      (project_vertices ⟨0, 0, 1⟩ (preprocess true [rawC4]))
        ⟨0, 0, 1⟩).2.2 = 0 := by
  rw [meshC4_eval]
  refine ⟨meshC4_no_contour, ?_⟩
  rw [calc_overhang_contour]
  have hc : contoursOf [faceC4] = [] := by
    unfold contoursOf
    rw [List.filter_eq_nil_iff]
    intro f hf
    simpa using meshC4_no_contour f hf
  rw [if_pos rfl, hc]
  simp

/-- Witness for Claim C4's amended theorem at the concrete `rawC4` table. -/
theorem calc_overhang_contour_empty_witness :
    (∀ f ∈ [faceC4],
      ¬(f.projMedian < totalMin [faceC4] + FIRST_LAY_H)) ∧
    (calc_overhang true false [faceC4] ⟨0, 0, 1⟩).2.2 = 0 :=
  ⟨meshC4_no_contour,
    calc_overhang_contour_empty false [faceC4] ⟨0, 0, 1⟩ meshC4_no_contour⟩

/-! ## Claims C7 and C8: the preprocessing table -/

lemma buildRow_area_nonneg (rows : List RawFace) :
    ∀ g ∈ rows.map buildRow, 0 ≤ g.area := by
  intro g hg
  obtain ⟨r, _, hgr⟩ := List.mem_map.mp hg
  rw [← hgr]
  exact Real.sqrt_nonneg _

lemma normalizeRows_area_pos {rows : List Face}
    (h : ∀ g ∈ rows, 0 ≤ g.area) :
    ∀ f ∈ normalizeRows rows, 0 < f.area := by
  intro f hf
  unfold normalizeRows at hf
  obtain ⟨g, hg, hfg⟩ := List.mem_map.mp hf
  have hgmem := List.mem_of_mem_filter hg
  have hgne : g.area ≠ 0 := of_decide_eq_true (List.mem_filter.mp hg).2
  have hgpos : 0 < g.area := lt_of_le_of_ne (h g hgmem) (Ne.symm hgne)
  rw [← hfg]
  show 0 < g.area / 2
  linarith

lemma preprocess_sublist (extended_mode : Bool) (rows : List RawFace) :
    (preprocess extended_mode rows).Sublist
      (normalizeRows (rows.map buildRow)) := by
  simp only [preprocess]
  split
  · split
    · exact List.filter_sublist _
    · exact List.Sublist.refl _
  · exact List.Sublist.refl _

/-- Claim C7: faces with area below (or at) the configured minimum are
removed exactly when the removal leaves more than the 100-face safeguard;
whenever removal would leave at most 100 faces the unfiltered table is kept;
zero-area faces have already been dropped (every surviving area is positive)
and faces are never re-added (the result is a sublist of the zero-filtered
table). -/
theorem preprocess_small_face_filtering (extended_mode : Bool)
    (rows : List RawFace) :
    (100 < (filtered_mesh extended_mode rows).length →
      preprocess extended_mode rows = filtered_mesh extended_mode rows ∧
      ∀ f ∈ preprocess extended_mode rows,
        negl_size extended_mode < f.area) ∧
    ((filtered_mesh extended_mode rows).length ≤ 100 →
      preprocess extended_mode rows = normalizeRows (rows.map buildRow)) ∧
    (preprocess extended_mode rows).Sublist
      (normalizeRows (rows.map buildRow)) ∧
    (∀ f ∈ preprocess extended_mode rows, 0 < f.area) := by
  have hnegl : (0 : ℝ) < NEGL_FACE_SIZE := by norm_num [NEGL_FACE_SIZE]
  refine ⟨?_, ?_, preprocess_sublist extended_mode rows, ?_⟩
  · intro hbig
    have heq : preprocess extended_mode rows
        = filtered_mesh extended_mode rows := by
      simp only [preprocess]
      rw [if_pos hnegl, if_pos hbig]
    refine ⟨heq, ?_⟩
    intro f hf
    rw [heq] at hf
    exact of_decide_eq_true (List.mem_filter.mp hf).2
  · intro hsmall
    simp only [preprocess]
    rw [if_pos hnegl, if_neg (Nat.not_lt.mpr hsmall)]
  · intro f hf
    have hf2 := (preprocess_sublist extended_mode rows).mem hf
    exact normalizeRows_area_pos (buildRow_area_nonneg rows) f hf2

lemma vnorm_smul (c : ℝ) (v : Vec3) :
    vnorm (Vec3.smul c v) = |c| * vnorm v := by
  unfold vnorm Vec3.smul Vec3.dot
  rw [show c * v.x * (c * v.x) + c * v.y * (c * v.y) + c * v.z * (c * v.z)
    = c ^ 2 * (v.x * v.x + v.y * v.y + v.z * v.z) by ring]
  rw [Real.sqrt_mul (sq_nonneg c), Real.sqrt_sq_eq_abs]

lemma mem_preprocess_fields {extended_mode : Bool} {rows : List RawFace}
    {f : Face} (hf : f ∈ preprocess extended_mode rows) :
    ∃ r ∈ rows, f.normal = Vec3.smul (1 / vnorm r.n) r.n ∧
      f.area = vnorm r.n / 2 ∧ vnorm r.n ≠ 0 ∧
      f.v0 = r.v0 ∧ f.v1 = r.v1 ∧ f.v2 = r.v2 := by
  have hf2 := (preprocess_sublist extended_mode rows).mem hf
  unfold normalizeRows at hf2
  obtain ⟨g, hg, hfg⟩ := List.mem_map.mp hf2
  have hgne : g.area ≠ 0 := of_decide_eq_true (List.mem_filter.mp hg).2
  obtain ⟨r, hr, hgr⟩ := List.mem_map.mp (List.mem_of_mem_filter hg)
  refine ⟨r, hr, ?_, ?_, ?_, ?_, ?_, ?_⟩
  · rw [← hfg, ← hgr]; rfl
  · rw [← hfg, ← hgr]; rfl
  · rw [← hgr] at hgne
    exact hgne
  · rw [← hfg, ← hgr]; rfl
  · rw [← hfg, ← hgr]; rfl
  · rw [← hfg, ← hgr]; rfl

lemma unit_normal_of_ne {r : RawFace} (h : vnorm r.n ≠ 0) :
    vnorm (Vec3.smul (1 / vnorm r.n) r.n) = 1 := by
  rw [vnorm_smul]
  have hpos : 0 < vnorm r.n := lt_of_le_of_ne (vnorm_nonneg _) (Ne.symm h)
  rw [abs_of_pos (by positivity)]
  field_simp

/-- Claim C8, amended: every face surviving preprocessing carries a unit
normal; its stored area is half the magnitude of the supplied area vector —
which, in the 9-numbers-per-face format (`preprocess9`), is the cross
product of two triangle edges, so there the stored area is half the cross
product's magnitude. -/
theorem preprocess_area_normal (extended_mode : Bool) (rows : List RawFace)
    (tris : List (Vec3 × Vec3 × Vec3)) :
    (∀ f ∈ preprocess extended_mode rows, ∃ r ∈ rows,
      f.v0 = r.v0 ∧ f.v1 = r.v1 ∧ f.v2 = r.v2 ∧
      f.area = vnorm r.n / 2 ∧ vnorm f.normal = 1) ∧
    (∀ f ∈ preprocess9 extended_mode tris,
      f.area = vnorm (Vec3.cross (Vec3.sub f.v1 f.v0)
        (Vec3.sub f.v2 f.v0)) / 2 ∧ vnorm f.normal = 1) := by
  constructor
  · intro f hf
    obtain ⟨r, hr, hn, ha, hne, hv0, hv1, hv2⟩ := mem_preprocess_fields hf
    exact ⟨r, hr, hv0, hv1, hv2, ha, by rw [hn]; exact unit_normal_of_ne hne⟩
  · intro f hf
    unfold preprocess9 at hf
    obtain ⟨r, hr, hn, ha, hne, hv0, hv1, hv2⟩ := mem_preprocess_fields hf
    obtain ⟨t, _, htr⟩ := List.mem_map.mp hr
    have hrn : r.n = Vec3.cross (Vec3.sub t.2.1 t.1)
        (Vec3.sub t.2.2 t.1) := by rw [← htr]
    have hrv0 : r.v0 = t.1 := by rw [← htr]
    have hrv1 : r.v1 = t.2.1 := by rw [← htr]
    have hrv2 : r.v2 = t.2.2 := by rw [← htr]
    constructor
    · rw [ha, hrn, hv0, hv1, hv2, hrv0, hrv1, hrv2]
    · rw [hn]
      exact unit_normal_of_ne hne

/-- The 12-number input face of the C8 counterexample: the supplied area
vector `(0,0,2)` has twice the magnitude of the edge cross product of the
unit right triangle `(0,0,0)`, `(1,0,0)`, `(0,1,0)`. -/
noncomputable def rawC8 : RawFace :=
  ⟨⟨0, 0, 2⟩, ⟨0, 0, 0⟩, ⟨1, 0, 0⟩, ⟨0, 1, 0⟩⟩

/-- The table row `preprocess` produces from `rawC8`. -/
noncomputable def faceC8 : Face :=
  ⟨⟨0, 0, 1⟩, ⟨0, 0, 0⟩, ⟨1, 0, 0⟩, ⟨0, 1, 0⟩, 0, 0, 0, 1, 0, 0⟩

lemma vnorm_rawC8 : vnorm rawC8.n = 2 := by
  have hd : Vec3.dot rawC8.n rawC8.n = 4 := by
    norm_num [rawC8, Vec3.dot]
  unfold vnorm
  rw [hd]
  exact sqrt_eval (by norm_num) (by norm_num)

lemma meshC8_eval : preprocess false [rawC8] = [faceC8] := by
  rw [preprocess_singleton false rawC8 (by rw [vnorm_rawC8]; norm_num)]
  congr 1
  rw [vnorm_rawC8]
  simp only [buildRow, rawC8, faceC8, Vec3.smul, max3, med3,
    Face.mk.injEq, Vec3.mk.injEq]
  norm_num

/-- Claim C8, counterexample: in the 12-numbers-per-face format the stored
area (half the supplied normal's magnitude: here `1`) differs from half the
magnitude of the triangle's edge cross product (here `1/2`). -/
theorem preprocess_area_not_cross_cex :
    ∃ f ∈ preprocess false [rawC8],
      f.area ≠ vnorm (Vec3.cross (Vec3.sub f.v1 f.v0)
        (Vec3.sub f.v2 f.v0)) / 2 := by
  rw [meshC8_eval]
  refine ⟨faceC8, List.mem_singleton_self _, ?_⟩
  have hcross : Vec3.cross (Vec3.sub faceC8.v1 faceC8.v0)
      (Vec3.sub faceC8.v2 faceC8.v0) = ⟨0, 0, 1⟩ := by
    simp only [faceC8, Vec3.cross, Vec3.sub, Vec3.mk.injEq]
    norm_num
  rw [hcross]
  have hv : vnorm ⟨0, 0, 1⟩ = 1 := by
    have hd : Vec3.dot ⟨0, 0, 1⟩ ⟨0, 0, 1⟩ = 1 := by norm_num [Vec3.dot]
    unfold vnorm
    rw [hd]
    exact sqrt_eval (by norm_num) (by norm_num)
  rw [hv]
  norm_num [faceC8]

/-! ## Claim C10: side favouring and its error handling -/

lemma filter_append_map_perm {α : Type} (l : List α) (p : α → Bool)
    (g : α → α) :
    ((l.filter fun a => ! p a) ++ (l.filter p).map g).Perm
      (l.map fun a => if p a = true then g a else a) := by
  induction l with
  | nil => simp
  | cons a t ih =>
    simp only [List.filter_cons, List.map_cons]
    by_cases hp : p a = true
    · simp only [hp, Bool.not_true, Bool.false_eq_true, if_false, if_true,
        List.map_cons]
      exact (List.perm_middle).trans (ih.cons (g a))
    · rw [Bool.not_eq_true] at hp
      simp only [hp, Bool.not_false, if_true, Bool.false_eq_true, if_false]
      exact ih.cons a

open Classical in
/-- Claim C10: a non-string favoured-side argument, and a string from which
the four numbers cannot be parsed, both fail immediately with the error
"Could not parse input: favored side" and no partial recovery; for every
parsed `(x, y, z, f)` the construction succeeds and the resulting table is,
up to the reordering the source's concatenation performs, the input table
with each aligning face's area multiplied by `f` and every other face
unchanged. -/
theorem favour_side_spec (mesh : List Face) :
    (favour_side mesh Favside.notStr
      = .error ("Could not parse input: favored side")) ∧
    (∀ s, favour_side mesh (Favside.unparseable s)
      = .error ("Could not parse input: favored side")) ∧
    (∀ x y z f : ℝ, ∃ L, favour_side mesh (Favside.parsed x y z f) = .ok L ∧
      L.Perm (mesh.map fun fc =>
        if favAligns x y z fc then { fc with area := f * fc.area }
        else fc)) := by
  refine ⟨rfl, fun s => rfl, ?_⟩
  intro x y z f
  refine ⟨_, rfl, ?_⟩
  have h := filter_append_map_perm mesh
    (fun fc => decide (favAligns x y z fc))
    (fun fc => { fc with area := f * fc.area })
  refine h.trans ?_
  have heq : (fun fc => if decide (favAligns x y z fc) = true then
        ({ fc with area := f * fc.area } : Face) else fc)
      = fun fc => if favAligns x y z fc then
        ({ fc with area := f * fc.area } : Face) else fc := by
    funext fc
    by_cases hfc : favAligns x y z fc
    · rw [if_pos (decide_eq_true hfc), if_pos hfc]
    · rw [if_neg (by simpa using hfc), if_neg hfc]
  rw [heq]

/-! ## Claim C5: the rotation encoder -/

/-- The nine hand-written matrix entries of the source equal the structural
Rodrigues formula `cos φ · I + sin φ · K(v) + (1 - cos φ) · v vᵀ`. -/
lemma rotational_matrix_eq_rodrigues (v : Vec3) (phi : ℝ) :
    rotational_matrix v phi = rodrigues v phi := by
  unfold rotational_matrix rodrigues Mat3.addM Mat3.smulM Mat3.idM
    crossMat outerMat
  simp only [Mat3.mk.injEq]
  refine ⟨?_, ?_, ?_, ?_, ?_, ?_, ?_, ?_, ?_⟩ <;> ring

lemma euler_matrix (d : Vec3) :
    (euler d).2.2 = rotational_matrix (euler d).1 (euler d).2.1 := rfl

/-- Claim C5, amended: `euler` returns, for a direction within the
`np.allclose` tolerance of `(0,0,-1)`, the axis `(1,0,0)` with angle `π`;
within tolerance of `(0,0,1)`, the axis `(1,0,0)` with angle `0`; otherwise
the axis `normalize((-d.y, d.x, 0))` and the angle `π - arccos(-d.z)`, both
rounded componentwise to six decimal digits (the source formats them with
`"{:2f}"`); in every case the returned matrix is the Rodrigues axis-angle
matrix of the returned axis and returned angle. -/
theorem euler_spec (d : Vec3) :
    ((euler d).2.2 = rodrigues (euler d).1 (euler d).2.1) ∧
    (allclose d ⟨0, 0, -1⟩ VECTOR_TOL →
      (euler d).1 = ⟨1, 0, 0⟩ ∧ (euler d).2.1 = Real.pi) ∧
    (¬ allclose d ⟨0, 0, -1⟩ VECTOR_TOL →
      allclose d ⟨0, 0, 1⟩ VECTOR_TOL →
      (euler d).1 = ⟨1, 0, 0⟩ ∧ (euler d).2.1 = 0) ∧
    (¬ allclose d ⟨0, 0, -1⟩ VECTOR_TOL →
      ¬ allclose d ⟨0, 0, 1⟩ VECTOR_TOL →
      (euler d).1 = ⟨round6 ((normalizeVec ⟨-d.y, d.x, 0⟩).x),
        round6 ((normalizeVec ⟨-d.y, d.x, 0⟩).y),
        round6 ((normalizeVec ⟨-d.y, d.x, 0⟩).z)⟩ ∧
      (euler d).2.1 = round6 (Real.pi - Real.arccos (-d.z))) := by
  refine ⟨by rw [euler_matrix]; exact rotational_matrix_eq_rodrigues _ _,
    ?_, ?_, ?_⟩
  · intro h1
    unfold euler
    rw [if_pos h1]
    exact ⟨rfl, rfl⟩
  · intro h1 h2
    unfold euler
    rw [if_neg h1, if_pos h2]
    exact ⟨rfl, rfl⟩
  · intro h1 h2
    unfold euler
    rw [if_neg h1, if_neg h2]
    have hlen : Real.sqrt ((-d.y) ^ 2 + d.x ^ 2 + (0 : ℝ) ^ 2)
        = vnorm ⟨-d.y, d.x, 0⟩ := by
      unfold vnorm Vec3.dot
      congr 1
      ring
    have hx : -d.y / Real.sqrt ((-d.y) ^ 2 + d.x ^ 2 + (0 : ℝ) ^ 2)
        = (normalizeVec ⟨-d.y, d.x, 0⟩).x := by
      rw [hlen]
      unfold normalizeVec Vec3.smul
      show _ = 1 / vnorm ⟨-d.y, d.x, 0⟩ * (-d.y)
      ring
    have hy : d.x / Real.sqrt ((-d.y) ^ 2 + d.x ^ 2 + (0 : ℝ) ^ 2)
        = (normalizeVec ⟨-d.y, d.x, 0⟩).y := by
      rw [hlen]
      unfold normalizeVec Vec3.smul
      show _ = 1 / vnorm ⟨-d.y, d.x, 0⟩ * d.x
      ring
    have hz : (0 : ℝ) / Real.sqrt ((-d.y) ^ 2 + d.x ^ 2 + (0 : ℝ) ^ 2)
        = (normalizeVec ⟨-d.y, d.x, 0⟩).z := by
      rw [hlen]
      unfold normalizeVec Vec3.smul
      show _ = 1 / vnorm ⟨-d.y, d.x, 0⟩ * 0
      ring
    constructor
    · show (⟨round6 (-d.y / Real.sqrt ((-d.y) ^ 2 + d.x ^ 2 + (0:ℝ) ^ 2)),
        round6 (d.x / Real.sqrt ((-d.y) ^ 2 + d.x ^ 2 + (0:ℝ) ^ 2)),
        round6 ((0:ℝ) / Real.sqrt ((-d.y) ^ 2 + d.x ^ 2 + (0:ℝ) ^ 2))⟩ : Vec3)
        = _
      rw [hx, hy, hz]
    · rfl

/-- Claim C5, counterexample: at the direction `(1, 0, 0)` the returned
angle is the six-decimal rounding `1.570796`, which differs from the exact
`π - arccos(-d.z) = π / 2`. -/
theorem euler_angle_rounded_cex :
    (euler ⟨1, 0, 0⟩).2.1
      ≠ Real.pi - Real.arccos (-(⟨1, 0, 0⟩ : Vec3).z) := by
  have h1 : ¬ allclose ⟨1, 0, 0⟩ ⟨0, 0, -1⟩ VECTOR_TOL := by
    unfold allclose VECTOR_TOL npRtol
    intro h
    have := h.1
    norm_num at this
  have h2 : ¬ allclose ⟨1, 0, 0⟩ ⟨0, 0, 1⟩ VECTOR_TOL := by
    unfold allclose VECTOR_TOL npRtol
    intro h
    have := h.1
    norm_num at this
  have hphi : (euler ⟨1, 0, 0⟩).2.1
      = round6 (Real.pi - Real.arccos (-(0 : ℝ))) := by
    unfold euler
    rw [if_neg h1, if_neg h2]
  rw [hphi]
  have harc : Real.arccos (-(0 : ℝ)) = Real.pi / 2 := by
    rw [neg_zero, Real.arccos_zero]
  rw [harc]
  have hval : round6 (Real.pi - Real.pi / 2) = 1570796 / 1000000 := by
    unfold round6
    have hfloor : ⌊(Real.pi - Real.pi / 2) * 1000000 + 1 / 2⌋
        = (1570796 : ℤ) := by
      rw [Int.floor_eq_iff]
      constructor
      · push_cast
        nlinarith [Real.pi_gt_d6]
      · push_cast
        nlinarith [Real.pi_lt_d6]
    rw [hfloor]
    norm_num
  rw [hval]
  show (1570796 / 1000000 : ℝ) ≠ Real.pi - Real.pi / 2
  intro hcon
  nlinarith [Real.pi_gt_d6]

/-! ## Claim C6: deduplication -/

lemma tol_angle_nonneg : 0 ≤ tol_angle := by
  unfold tol_angle
  apply Real.sin_nonneg_of_nonneg_of_le_pi
  · positivity
  · nlinarith [Real.pi_pos]

lemma tol_angle_lt : tol_angle < 0.0872665 := by
  unfold tol_angle
  have hpos : 0 < 5 * Real.pi / 180 := by positivity
  have h1 := Real.sin_lt hpos
  nlinarith [Real.pi_lt_d6]

lemma tol_angle_gt : (0.0871 : ℝ) < tol_angle := by
  unfold tol_angle
  set x : ℝ := 5 * Real.pi / 180 with hx
  have hpos : 0 < x := by rw [hx]; positivity
  have hub : x < 0.0872665 := by rw [hx]; nlinarith [Real.pi_lt_d6]
  have hlb : (0.0872664 : ℝ) < x := by rw [hx]; nlinarith [Real.pi_gt_d6]
  have hle1 : x ≤ 1 := by linarith
  have hcube : x ^ 3 ≤ (0.0872665 : ℝ) ^ 3 :=
    pow_le_pow_left₀ hpos.le hub.le 3
  have hsin := Real.sin_gt_sub_cube hpos hle1
  nlinarith [hcube, hsin, hlb]

lemma removeDupGo_prefix_sublist (rest : List Orient) :
    ∀ acc : List Orient, ∃ tail, removeDupGo acc rest = acc ++ tail ∧
      tail.Sublist rest := by
  induction rest with
  | nil =>
    intro acc
    exact ⟨[], by simp [removeDupGo], List.Sublist.refl _⟩
  | cons i rest ih =>
    intro acc
    simp only [removeDupGo]
    by_cases h : ∃ j ∈ acc, allclose i.1 j.1 tol_angle
    · rw [if_pos h]
      obtain ⟨tail, ht, hs⟩ := ih acc
      exact ⟨tail, ht, hs.cons i⟩
    · rw [if_neg h]
      obtain ⟨tail, ht, hs⟩ := ih (acc ++ [i])
      refine ⟨i :: tail, ?_, hs.cons₂ i⟩
      rw [ht]
      simp

lemma removeDupGo_pairwise (rest : List Orient) :
    ∀ acc : List Orient,
      List.Pairwise (fun j i => ¬ allclose i.1 j.1 tol_angle) acc →
      List.Pairwise (fun j i => ¬ allclose i.1 j.1 tol_angle)
        (removeDupGo acc rest) := by
  induction rest with
  | nil => intro acc h; exact h
  | cons i rest ih =>
    intro acc h
    simp only [removeDupGo]
    by_cases hc : ∃ j ∈ acc, allclose i.1 j.1 tol_angle
    · rw [if_pos hc]
      exact ih acc h
    · rw [if_neg hc]
      apply ih
      rw [List.pairwise_append]
      refine ⟨h, List.pairwise_singleton _ _, ?_⟩
      intro j hj i' hi'
      rw [List.mem_singleton] at hi'
      subst hi'
      exact fun hclose => hc ⟨j, hj, hclose⟩

lemma removeDupGo_complete (rest : List Orient) :
    ∀ (acc : List Orient) (i : Orient), i ∈ rest →
      i ∈ removeDupGo acc rest ∨
        ∃ j ∈ removeDupGo acc rest, allclose i.1 j.1 tol_angle := by
  induction rest with
  | nil => intro acc i hi; cases hi
  | cons a rest ih =>
    intro acc i hi
    simp only [removeDupGo]
    by_cases hc : ∃ j ∈ acc, allclose a.1 j.1 tol_angle
    · rw [if_pos hc]
      rcases List.mem_cons.mp hi with h | h
      · subst h
        obtain ⟨j, hj, hcl⟩ := hc
        right
        obtain ⟨tail, ht, _⟩ := removeDupGo_prefix_sublist rest acc
        exact ⟨j, by rw [ht]; exact List.mem_append_left _ hj, hcl⟩
      · exact ih acc i h
    · rw [if_neg hc]
      rcases List.mem_cons.mp hi with h | h
      · subst h
        left
        obtain ⟨tail, ht, _⟩ := removeDupGo_prefix_sublist rest (acc ++ [i])
        rw [ht]
        exact List.mem_append_left _
          (List.mem_append_right _ (List.mem_singleton_self _))
      · exact ih _ i h

lemma abs_le_vnorm_x (w : Vec3) : |w.x| ≤ vnorm w := by
  unfold vnorm Vec3.dot
  rw [show |w.x| = Real.sqrt (w.x ^ 2) from (Real.sqrt_sq_eq_abs _).symm]
  apply Real.sqrt_le_sqrt
  nlinarith [sq_nonneg w.y, sq_nonneg w.z]

lemma abs_le_vnorm_y (w : Vec3) : |w.y| ≤ vnorm w := by
  unfold vnorm Vec3.dot
  rw [show |w.y| = Real.sqrt (w.y ^ 2) from (Real.sqrt_sq_eq_abs _).symm]
  apply Real.sqrt_le_sqrt
  nlinarith [sq_nonneg w.x, sq_nonneg w.z]

lemma abs_le_vnorm_z (w : Vec3) : |w.z| ≤ vnorm w := by
  unfold vnorm Vec3.dot
  rw [show |w.z| = Real.sqrt (w.z ^ 2) from (Real.sqrt_sq_eq_abs _).symm]
  apply Real.sqrt_le_sqrt
  nlinarith [sq_nonneg w.x, sq_nonneg w.y]

/-- Failing `np.allclose` forces a chordal (Euclidean) separation larger
than the tolerance. -/
lemma chordal_of_not_allclose {a b : Vec3}
    (h : ¬ allclose a b tol_angle) :
    tol_angle < vnorm (Vec3.sub a b) := by
  unfold allclose at h
  have hr : (0 : ℝ) ≤ npRtol := by norm_num [npRtol]
  rcases not_and_or.mp h with h1 | h23
  · have hgt : tol_angle < |a.x - b.x| := by
      have := not_le.mp h1
      have habs : 0 ≤ npRtol * |b.x| := mul_nonneg hr (abs_nonneg _)
      linarith
    exact lt_of_lt_of_le hgt (abs_le_vnorm_x ⟨a.x - b.x, a.y - b.y, a.z - b.z⟩)
  · rcases not_and_or.mp h23 with h2 | h3
    · have hgt : tol_angle < |a.y - b.y| := by
        have := not_le.mp h2
        have habs : 0 ≤ npRtol * |b.y| := mul_nonneg hr (abs_nonneg _)
        linarith
      exact lt_of_lt_of_le hgt
        (abs_le_vnorm_y ⟨a.x - b.x, a.y - b.y, a.z - b.z⟩)
    · have hgt : tol_angle < |a.z - b.z| := by
        have := not_le.mp h3
        have habs : 0 ≤ npRtol * |b.z| := mul_nonneg hr (abs_nonneg _)
        linarith
      exact lt_of_lt_of_le hgt
        (abs_le_vnorm_z ⟨a.x - b.x, a.y - b.y, a.z - b.z⟩)

/-- Claim C6, amended: `remove_duplicates` is greedy and order-preserving
(the result is a sublist of the input); it keeps a candidate exactly when it
is not `np.allclose` (componentwise within `atol = sin 5°` plus numpy's
relative term) to an already-kept candidate; consequently every pair of
distinct retained candidates differs by more than the tolerance in some
coordinate, hence their chordal (Euclidean) separation exceeds `sin 5°`. -/
theorem remove_duplicates_greedy (old_orients : List Orient) :
    (remove_duplicates old_orients).Sublist old_orients ∧
    List.Pairwise (fun j i => ¬ allclose i.1 j.1 tol_angle)
      (remove_duplicates old_orients) ∧
    List.Pairwise (fun j i => tol_angle < vnorm (Vec3.sub i.1 j.1))
      (remove_duplicates old_orients) ∧
    (∀ i ∈ old_orients, i ∈ remove_duplicates old_orients ∨
      ∃ j ∈ remove_duplicates old_orients, allclose i.1 j.1 tol_angle) := by
  have hpair := removeDupGo_pairwise old_orients [] List.Pairwise.nil
  refine ⟨?_, hpair, ?_, ?_⟩
  · obtain ⟨tail, ht, hs⟩ := removeDupGo_prefix_sublist old_orients []
    unfold remove_duplicates
    rw [ht]
    simpa using hs
  · exact hpair.imp fun h => chordal_of_not_allclose h
  · intro i hi
    exact removeDupGo_complete old_orients [] i hi

/-- The two rational unit vectors of the C6 counterexample: componentwise
they differ by less than `sin 5°`, yet their chordal distance exceeds it. -/
noncomputable def uC6 : Vec3 := ⟨623 / 627, 50 / 627, 50 / 627⟩

noncomputable def vC6 : Vec3 := ⟨1, 0, 0⟩

lemma allclose_uC6_vC6 : allclose uC6 vC6 tol_angle := by
  unfold allclose uC6 vC6 npRtol
  have ht := tol_angle_gt
  refine ⟨?_, ?_, ?_⟩
  · rw [show (623 / 627 : ℝ) - 1 = -(4 / 627) by norm_num, abs_neg,
      abs_of_nonneg (by norm_num : (0 : ℝ) ≤ 4 / 627),
      abs_of_nonneg (by norm_num : (0 : ℝ) ≤ 1)]
    linarith
  · rw [show (50 / 627 : ℝ) - 0 = 50 / 627 by norm_num,
      abs_of_nonneg (by norm_num : (0 : ℝ) ≤ 50 / 627), abs_zero]
    linarith
  · rw [show (50 / 627 : ℝ) - 0 = 50 / 627 by norm_num,
      abs_of_nonneg (by norm_num : (0 : ℝ) ≤ 50 / 627), abs_zero]
    linarith

/-- Claim C6, counterexample: `uC6` and `vC6` are unit vectors whose chordal
separation exceeds `sin 5°`, yet `remove_duplicates` drops `uC6` as a
duplicate of `vC6` — the source tests componentwise `np.allclose`
closeness, not chordal distance. -/
theorem remove_duplicates_chordal_cex :
    vnorm uC6 = 1 ∧ vnorm vC6 = 1 ∧
    tol_angle < vnorm (Vec3.sub uC6 vC6) ∧
    remove_duplicates [(vC6, 0), (uC6, 0)] = [(vC6, 0)] := by
  refine ⟨?_, ?_, ?_, ?_⟩
  · have hd : Vec3.dot uC6 uC6 = 1 := by
      unfold uC6 Vec3.dot
      norm_num
    unfold vnorm
    rw [hd]
    exact sqrt_eval (by norm_num) (by norm_num)
  · have hd : Vec3.dot vC6 vC6 = 1 := by
      unfold vC6 Vec3.dot
      norm_num
    unfold vnorm
    rw [hd]
    exact sqrt_eval (by norm_num) (by norm_num)
  · have hd : Vec3.dot (Vec3.sub uC6 vC6) (Vec3.sub uC6 vC6)
        = 5016 / 393129 := by
      unfold uC6 vC6 Vec3.sub Vec3.dot
      norm_num
    unfold vnorm
    rw [hd]
    have h1 : (0.0872665 : ℝ) < Real.sqrt (5016 / 393129) :=
      (Real.lt_sqrt (by norm_num)).mpr (by norm_num)
    exact lt_trans tol_angle_lt h1
  · unfold remove_duplicates
    simp only [removeDupGo]
    rw [if_neg (by simp)]
    rw [if_pos ⟨(vC6, 0), by simp, allclose_uC6_vC6⟩]
    simp [removeDupGo]

end MeshTweaker
